import Mathlib

/-!
WebPlotDigitizer: the file manager.

A shallow embedding of `wpd.FileManager`
(`src/app/javascript/controllers/fileManager.js`) and the properties of its
document registry, switch protocol and association index.

Objects that the file manager only refers to (page managers, undo managers,
entities, parsed PDFs) are handles: two handles are the same object exactly
when they are equal.  The mutable fields of the class, the live slots of
`wpd.appData` and the log of requests sent to the other collaborators are
threaded through one `State` record.
-/

namespace WPD

/-! ## JavaScript objects used as maps -/

/-- A JavaScript object whose keys are integer indices (`pageManagers`,
`undoManagers`, `axesByFile`, ...): file indices and page numbers, which are
never negative.  An entry list stands for the object; a key that has no
entry reads as `undefined`. -/
abbrev Obj (α : Type) := List (Int × α)

/-- The read `o[k]`: the value stored under `k`, `none` for `undefined`. -/
def Obj.get {α : Type} : Obj α → Int → Option α
  | [], _ => none
  | (k', v) :: rest, k => if k' = k then some v else Obj.get rest k

/-- The write `o[k] = v`.  Integer keys of a JavaScript object are enumerated
in ascending order, so a new key is placed in front of the first larger one
and an existing key keeps its place. -/
def Obj.put {α : Type} : Obj α → Int → α → Obj α
  | [], k, v => [(k, v)]
  | (k', v') :: rest, k, v =>
    if k < k' then (k, v) :: (k', v') :: rest
    else if k = k' then (k, v) :: rest
    else (k', v') :: Obj.put rest k v

/-- The keys in enumeration order (`for (const k in o)`, `Object.keys(o)`). -/
def Obj.keys {α : Type} (o : Obj α) : List Int := o.map Prod.fst

/-- A JavaScript object whose keys are names; a new key goes last (insertion
order) and a write to an existing key replaces its value in place. -/
abbrev NameMap := List (String × Int)

/-- The read `m[name]`. -/
def NameMap.get : NameMap → String → Option Int
  | [], _ => none
  | (n', v) :: rest, n => if n' = n then some v else NameMap.get rest n

/-- The write `m[name] = v`. -/
def NameMap.put : NameMap → String → Int → NameMap
  | [], n, v => [(n, v)]
  | (n', v') :: rest, n, v =>
    if n' = n then (n, v) :: rest else (n', v') :: NameMap.put rest n v

/-! ## Data model -/

/-- A loaded file: the `name` and `type` properties the file manager reads. -/
structure Document where
  name : String
  type : String
deriving DecidableEq, Repr

/-- Handle of a page manager object (the PageStructure of a document). -/
structure PageManager where
  id : Nat
deriving DecidableEq, Repr

/-- Handle of an undo manager object (the History of a document). -/
structure UndoManager where
  id : Nat
deriving DecidableEq, Repr

/-- Handle of a parsed PDF document. -/
structure Pdf where
  id : Nat
deriving DecidableEq, Repr

/-- Handle of an axes, dataset or measurement object of the plot data; `id`
is the object identity (what `indexOf` compares) and `name` its `name`
property. -/
structure Entity where
  id : Nat
  name : String
deriving DecidableEq, Repr

/-- What `wpd.appData.getPlotData()` exposes to the file manager: the axes
collection, the datasets and the measurement collection. -/
structure PlotData where
  axesColl : List Entity
  datasets : List Entity
  measurementColl : List Entity
deriving DecidableEq, Repr

/-- The `file` section handed to `loadMetadata`: per kind, file index to the
entities of that file. -/
structure FileMetadata where
  axes : Obj (List Entity)
  datasets : Obj (List Entity)
  measurements : Obj (List Entity)
deriving DecidableEq, Repr

/-- The `page` section handed to `loadMetadata` and to `loadPageData`: per
kind, page key to the entities on that page. -/
structure PageMetadata where
  axes : Obj (List Entity)
  datasets : Obj (List Entity)
  measurements : Obj (List Entity)
deriving DecidableEq, Repr

/-- The argument of `loadMetadata`. -/
structure Metadata where
  file : Option FileMetadata
  page : Option PageMetadata
deriving DecidableEq, Repr

/-- The `file` section written by `getMetadata`. -/
structure FileExport where
  axes : NameMap
  datasets : NameMap
  measurements : List (Option Int)
deriving DecidableEq, Repr

/-- The `page` section written by `getMetadata`. -/
structure PageExport where
  axes : NameMap
  datasets : NameMap
  measurements : List (Option Int)
deriving DecidableEq, Repr

/-- The object returned by `getMetadata`; a section that is `none` is a key
the object does not have. -/
structure MetadataExport where
  file : Option FileExport
  page : Option PageExport
deriving DecidableEq, Repr

/-- The two element groups whose display the file manager toggles:
`$pageInfoElements` (class `paged`) and `$fileSelectorContainers` (class
`files`). -/
inductive Elements where
  | pageInfoElements
  | fileSelectorContainers
deriving DecidableEq, Repr

/-- A request the file manager sends to a collaborator, in the order sent. -/
inductive Effect where
  /-- The call `wpd.utils.toggleElementsDisplay(elements, hide)`. -/
  | toggleElementsDisplay (elements : Elements) (hide : Bool)
  /-- The assignment to `$fileSelector.innerHTML`. -/
  | fileSelectorHTML (html : String)
  /-- The call `wpd.imageManager.loadFromFile(file, resumedProject)`; `file`
  is `none` when `files[newIndex]` is `undefined`. -/
  | loadFromFile (file : Option Document) (flag : Bool)
  /-- The call `wpd.tree.refresh()`. -/
  | treeRefresh
  /-- The call `pageManager.loadPageData(data)`. -/
  | loadPageData (pm : PageManager) (data : PageMetadata)
  /-- The call `reader.readAsDataURL(file)` that starts the fetch of a PDF. -/
  | readAsDataURL (file : Option Document)
deriving DecidableEq, Repr

/-- Modelled from the spec: the part of `wpd.appData` (not under `src/`) that
the file manager writes.  The spec (sections 4.1 and 5) has one live slot for
the PageStructure and one for the History: `setPageManager` and
`setUndoManager` install a value or none, `getPageManager` reads the first
slot.  `plotData` is what `getPlotData()` returns. -/
structure AppData where
  pageManager : Option PageManager
  undoManager : Option UndoManager
  plotData : PlotData
deriving DecidableEq, Repr

/-- The collaborators' read accessors, which are not under `src/`; the file
manager is verified for every behaviour of them.  `getUndoManager` always
yields an object (the source calls `canUndo()` on its result unguarded);
`getMultipageUndoManager` may yield `null`. -/
structure Collaborators where
  getUndoManager : AppData → UndoManager
  getMultipageUndoManager : AppData → Option UndoManager
  canUndo : UndoManager → Bool
  canRedo : UndoManager → Bool
  isMultipage : AppData → Bool
  getAxesNameMap : PageManager → NameMap
  getDatasetNameMap : PageManager → NameMap
  getMeasurementPageMap : PageManager → Obj (List Entity)
  initializePDFManager : Option Pdf → PageManager

/-- The fields of a `wpd.FileManager` instance, the live slots of
`wpd.appData`, and the requests sent so far (oldest first). -/
structure State where
  currentIndex : Int
  pageManagers : Obj PageManager
  undoManagers : Obj UndoManager
  axesByFile : Obj (List Entity)
  datasetsByFile : Obj (List Entity)
  measurementsByFile : Obj (List Entity)
  files : List Document
  app : AppData
  effects : List Effect
deriving DecidableEq, Repr

/-- The element `files[i]`; `none` is `undefined` (index out of range). -/
def fileAt (files : List Document) (i : Int) : Option Document :=
  if 0 ≤ i then files.get? i.toNat else none

/-! ## The helpers of `wpd.utils` -/

namespace utils

/-- Modelled from the spec: `wpd.utils.addToCollection` (not under `src/`).
Section 4.2: addEntities "appends to the current document's set for that
entity kind, creating the set on first use". -/
def addToCollection (collection : Obj (List Entity)) (key : Int)
    (objects : List Entity) : Obj (List Entity) :=
  collection.put key ((collection.get key).getD [] ++ objects)

/-- Modelled from the spec: `wpd.utils.deleteFromCollection` (not under
`src/`).  Section 4.2: removeEntities "removes given entities from the
current document's set; removing a non-member is a no-op"; scenario 4: with
no set for the document nothing changes. -/
def deleteFromCollection (collection : Obj (List Entity)) (key : Int)
    (objects : List Entity) : Obj (List Entity) :=
  match collection.get key with
  | some members => collection.put key (members.filter (fun e => decide (e ∉ objects)))
  | none => collection

/-- Modelled from the spec: `wpd.utils.filterCollection` (not under `src/`).
Section 4.2: filterToCurrent "returns the subset of `candidates` that belong
to the current document's set". -/
def filterCollection (collection : Obj (List Entity)) (key : Int)
    (objects : List Entity) : List Entity :=
  match collection.get key with
  | some members => objects.filter (fun e => decide (e ∈ members))
  | none => []

/-- Modelled from the spec: `wpd.utils.invertObject` (not under `src/`).
Section 4.2: inverseNameMap "builds, on demand, a map from entity
display-name to owning DocumentIndex by inverting the forward Association
Map"; "the inversion itself performs no uniqueness check", so a name met
again is written again. -/
def invertObject (object : Obj (List Entity)) : NameMap :=
  object.foldl
    (fun map entry => entry.2.foldl (fun map item => map.put item.name entry.1) map) []

/-- Modelled from the spec: `wpd.utils.findKey` (not under `src/`).  Section
4.3: each measurement is "resolved to its owning DocumentIndex via reverse
lookup", an unresolved lookup giving the absent marker (`none`); the first
key, in enumeration order, whose collection holds the object is returned. -/
def findKey (collection : Obj (List Entity)) (object : Entity) : Option Int :=
  match collection with
  | [] => none
  | (key, members) :: rest => if object ∈ members then some key else findKey rest object

end utils

namespace FileManager

/-- Append one request to the log. -/
def emit (e : Effect) (s : State) : State :=
  { s with effects := s.effects ++ [e] }

/-- Source `_showFileInfo`. -/
def _showFileInfo (s : State) : State :=
  emit (.toggleElementsDisplay .fileSelectorContainers false) s

/-- Source `_hideFileInfo`. -/
def _hideFileInfo (s : State) : State :=
  emit (.toggleElementsDisplay .fileSelectorContainers true) s

/-- Source `_showPageInfo`. -/
def _showPageInfo (s : State) : State :=
  emit (.toggleElementsDisplay .pageInfoElements false) s

/-- Source `_hidePageInfo`. -/
def _hidePageInfo (s : State) : State :=
  emit (.toggleElementsDisplay .pageInfoElements true) s

/-- Source `_init`: every field of the manager is reset, then the page
information is hidden.  The slots of `wpd.appData` are not touched. -/
def _init (s : State) : State :=
  _hidePageInfo
    { s with
      currentIndex := 0
      pageManagers := []
      undoManagers := []
      axesByFile := []
      datasetsByFile := []
      measurementsByFile := []
      files := [] }

/-- The state right after `new wpd.FileManager()`: the constructor runs
`_init`; `app` is the state of `wpd.appData` at that moment. -/
def create (app : AppData) : State :=
  _init
    { currentIndex := 0, pageManagers := [], undoManagers := [], axesByFile := [],
      datasetsByFile := [], measurementsByFile := [], files := [], app := app,
      effects := [] }

/-- The text built by the loop of `_initializeInput`, from index `i` on. -/
def optionsHTML (currentIndex : Int) : List Document → Nat → String
  | [], _ => ""
  | f :: rest, i =>
    "<option value=\"" ++ toString i
      ++ (if (i : Int) = currentIndex then " selected" else "")
      ++ "\">" ++ f.name ++ "</option>" ++ optionsHTML currentIndex rest (i + 1)

/-- Source `_initializeInput`. -/
def _initializeInput (s : State) : State :=
  emit (.fileSelectorHTML (optionsHTML s.currentIndex s.files 0)) s

/-- Source `set`: stores the file list, rebuilds the selector and shows the
file information when there is more than one file. -/
def set (files : List Document) (s : State) : State :=
  let s := { s with files := files }
  let s := _initializeInput s
  if files.length > 1 then _showFileInfo s else _hideFileInfo s

/-- Source `reset`. -/
def reset (s : State) : State := _init s

/-- Source `getFiles`. -/
def getFiles (s : State) : List Document := s.files

/-- Source `fileCount`. -/
def fileCount (s : State) : Nat := s.files.length

/-- Source `currentFileIndex`. -/
def currentFileIndex (s : State) : Int := s.currentIndex

/-- Source `refreshPageInfo`. -/
def refreshPageInfo (c : Collaborators) (s : State) : State :=
  if c.isMultipage s.app then _showPageInfo s else _hidePageInfo s

/-- Source `_savePageManager`: the live page manager is stored under
`currentIndex` when there is one and no entry exists there yet. -/
def _savePageManager (s : State) : State :=
  match s.app.pageManager with
  | some pageManager =>
    if (s.pageManagers.get s.currentIndex).isNone then
      { s with pageManagers := s.pageManagers.put s.currentIndex pageManager }
    else s
  | none => s

/-- Source `_loadPageManager`: the entry cached for `index`, or `null`, is
installed through `wpd.appData.setPageManager`. -/
def _loadPageManager (index : Int) (s : State) : State :=
  { s with app := { s.app with pageManager := s.pageManagers.get index } }

/-- The local `undoManager` of `_saveUndoManager` when it reaches the last
`if`: the multipage undo manager when a page manager is cached for the
current file, otherwise the plain one unless it can neither undo nor redo. -/
def undoManagerToSave (c : Collaborators) (s : State) : Option UndoManager :=
  if (s.pageManagers.get s.currentIndex).isSome then
    c.getMultipageUndoManager s.app
  else
    let undoManager := c.getUndoManager s.app
    if !c.canUndo undoManager && !c.canRedo undoManager then none
    else some undoManager

/-- Source `_saveUndoManager`. -/
def _saveUndoManager (c : Collaborators) (s : State) : State :=
  match undoManagerToSave c s with
  | some undoManager =>
    { s with undoManagers := s.undoManagers.put s.currentIndex undoManager }
  | none => s

/-- Source `_loadUndoManager`: the entry cached for `index`, or `null`, is
installed through `wpd.appData.setUndoManager`. -/
def _loadUndoManager (index : Int) (s : State) : State :=
  { s with app := { s.app with undoManager := s.undoManagers.get index } }

/-- The call `parseInt(index, 10)` on an integer argument below `10 ^ 21` in
absolute value (every index a selector or a caller can name): the decimal
text of such a number parses back to the number.  From `10 ^ 21` on the text
of a number is in exponent form and `parseInt` reads its leading digit only;
`parseIntExact` is the bound, and statements about sequences of calls carry
it through `keepsIndexInRange`. -/
def parseInt (index : Int) : Int := index

/-- Source `switch`. -/
def switch (c : Collaborators) (index : Int) (s : State) : State :=
  let newIndex := parseInt index
  if newIndex ≠ s.currentIndex ∧ newIndex > -1 ∧ newIndex ≤ s.files.length then
    let s := _savePageManager s
    let s := _loadPageManager newIndex s
    let s := _saveUndoManager c s
    let s := _loadUndoManager newIndex s
    let s := emit (.loadFromFile (fileAt s.files newIndex) true) s
    let s := { s with currentIndex := newIndex }
    emit .treeRefresh s
  else s

/-- Source `addAxesToCurrentFile`. -/
def addAxesToCurrentFile (axes : List Entity) (s : State) : State :=
  { s with axesByFile := utils.addToCollection s.axesByFile s.currentIndex axes }

/-- Source `addDatasetsToCurrentFile`. -/
def addDatasetsToCurrentFile (datasets : List Entity) (s : State) : State :=
  { s with datasetsByFile := utils.addToCollection s.datasetsByFile s.currentIndex datasets }

/-- Source `addMeasurementsToCurrentFile`. -/
def addMeasurementsToCurrentFile (measurements : List Entity) (s : State) : State :=
  { s with
    measurementsByFile :=
      utils.addToCollection s.measurementsByFile s.currentIndex measurements }

/-- Source `deleteDatasetsFromCurrentFile`. -/
def deleteDatasetsFromCurrentFile (datasets : List Entity) (s : State) : State :=
  { s with
    datasetsByFile := utils.deleteFromCollection s.datasetsByFile s.currentIndex datasets }

/-- Source `deleteMeasurementsFromCurrentFile`. -/
def deleteMeasurementsFromCurrentFile (measurements : List Entity) (s : State) : State :=
  { s with
    measurementsByFile :=
      utils.deleteFromCollection s.measurementsByFile s.currentIndex measurements }

/-- Source `getAxesNameMap`. -/
def getAxesNameMap (s : State) : NameMap := utils.invertObject s.axesByFile

/-- Source `getDatasetNameMap`. -/
def getDatasetNameMap (s : State) : NameMap := utils.invertObject s.datasetsByFile

/-- Source `filterToCurrentFileAxes`. -/
def filterToCurrentFileAxes (axes : List Entity) (s : State) : List Entity :=
  utils.filterCollection s.axesByFile s.currentIndex axes

/-- Source `filterToCurrentFileDatasets`. -/
def filterToCurrentFileDatasets (datasets : List Entity) (s : State) : List Entity :=
  utils.filterCollection s.datasetsByFile s.currentIndex datasets

/-- Source `filterToCurrentFileMeasurements`. -/
def filterToCurrentFileMeasurements (measurements : List Entity) (s : State) :
    List Entity :=
  utils.filterCollection s.measurementsByFile s.currentIndex measurements

/-- The call `Object.assign.apply(null, maps)`: the first map is the target
and every key of every later map is written into it, in order. -/
def objectAssign : List NameMap → NameMap
  | [] => []
  | target :: sources =>
    sources.foldl (fun acc src => src.foldl (fun acc kv => acc.put kv.1 kv.2) acc) target

/-- The body of the callback that `getMetadata` maps over the measurements
for the `page` section: the first truthy `findKey` result over the collected
measurement page maps (the test `if (foundPage)` fails for `undefined` and
for the number 0); `undefined` (`none`) when the loop ends. -/
def foundPage (ms : Entity) : List (Obj (List Entity)) → Option Int
  | [] => none
  | measurementPageMap :: rest =>
    match utils.findKey measurementPageMap ms with
    | some page => if page ≠ 0 then some page else foundPage ms rest
    | none => foundPage ms rest

/-- The page managers met by `for (const index in this.pageManagers)`, each
read back as `this.pageManagers[index]`. -/
def cachedPageManagers (s : State) : List PageManager :=
  s.pageManagers.keys.filterMap (fun index => s.pageManagers.get index)

/-- Source `getMetadata`: the returned object and the state left behind
(the live page manager may have been cached). -/
def getMetadata (c : Collaborators) (s : State) : MetadataExport × State :=
  let allMeasurements := s.app.plotData.measurementColl
  let s := _savePageManager s
  let file : Option FileExport :=
    if fileCount s > 1 then
      some
        { axes := getAxesNameMap s
          datasets := getDatasetNameMap s
          measurements := allMeasurements.map (fun ms => utils.findKey s.measurementsByFile ms) }
    else none
  let page : Option PageExport :=
    if s.pageManagers.keys.length > 0 then
      let axesNameMaps := [] :: (cachedPageManagers s).map c.getAxesNameMap
      let datasetNameMaps := [] :: (cachedPageManagers s).map c.getDatasetNameMap
      let measurementPageMaps := (cachedPageManagers s).map c.getMeasurementPageMap
      some
        { axes := objectAssign axesNameMaps
          datasets := objectAssign datasetNameMaps
          measurements := allMeasurements.map (fun ms => foundPage ms measurementPageMaps) }
    else none
  ({ file := file, page := page }, s)

/-- The `else` branch of the file part of `loadMetadata`: every entity of the
plot data is stored under key `'0'`. -/
def associateAllWithFirstFile (s : State) : State :=
  { s with
    axesByFile := s.axesByFile.put 0 s.app.plotData.axesColl
    datasetsByFile := s.datasetsByFile.put 0 s.app.plotData.datasets
    measurementsByFile := s.measurementsByFile.put 0 s.app.plotData.measurementColl }

/-- The file part of `loadMetadata` (source lines 267-278). -/
def loadFileMetadata (metadata : Metadata) (s : State) : State :=
  match metadata.file with
  | some file =>
    if s.files.length > 1 then
      { s with
        axesByFile := file.axes
        datasetsByFile := file.datasets
        measurementsByFile := file.measurements }
    else associateAllWithFirstFile s
  | none => associateAllWithFirstFile s

/-- The first loop of the page part of `loadMetadata`: one fetch is started
for every PDF file but the one at index 0. -/
def startFetches : List Document → Nat → State → State
  | [], _, s => s
  | f :: rest, index, s =>
    if f.type = "application/pdf" ∧ index > 0 then
      startFetches rest (index + 1) (emit (.readAsDataURL (fileAt s.files index)) s)
    else startFetches rest (index + 1) s

/-- The array `pdfs` that `Promise.all` resolves to: for every PDF file in
order, `null` for the file at index 0 and otherwise the parsed document that
its fetch produced (`parsed index`). -/
def resolvedPdfs (parsed : Nat → Pdf) : List Document → Nat → List (Option Pdf)
  | [], _ => []
  | f :: rest, index =>
    if f.type = "application/pdf" then
      (if index > 0 then some (parsed index) else none) :: resolvedPdfs parsed rest (index + 1)
    else resolvedPdfs parsed rest (index + 1)

/-- Source `loadMetadata`, up to its return: the file part, then the page
part.  With several files the page part only starts the fetches (the rest
runs in `loadMetadataThen`).  With one file the page data goes to
`pageManagers['0']`; when that entry is `undefined` the call throws a
`TypeError`, and the result is `.error` with the state reached. -/
def loadMetadata (metadata : Metadata) (s : State) : Except State State :=
  let s := loadFileMetadata metadata s
  match metadata.page with
  | some page =>
    if s.files.length > 1 then .ok (startFetches s.files 0 s)
    else
      match s.pageManagers.get 0 with
      | some pageManager => .ok (emit (.loadPageData pageManager page) s)
      | none => .error s
  | none => .ok s

/-- The object built by one of the three `for (const page in ...)` loops of
the callback: under every page key, the entries of that page that belong to
`members` (the collection of the file, `none` when it has none). -/
def filterPages (pages : Obj (List Entity)) (members : Option (List Entity)) :
    Obj (List Entity) :=
  pages.keys.foldl
    (fun acc page =>
      match pages.get page with
      | some entries =>
        acc.put page
          (entries.filter (fun e =>
            match members with
            | some ms => decide (e ∈ ms)
            | none => false))
      | none => acc)
    []

/-- The loop of the callback of `Promise.all(pdfs).then` in `loadMetadata`,
from file `index` on, `pdfIndex` PDF files having been seen.  A read of
`pageManagers[index]` that finds `undefined` throws a `TypeError`: the
result is `.error` with the state reached. -/
def reconstructPages (c : Collaborators) (page : PageMetadata) (pdfs : List (Option Pdf)) :
    List Document → Nat → Nat → State → Except State State
  | [], _, _, s => .ok s
  | f :: rest, index, pdfIndex, s =>
    if f.type = "application/pdf" then
      let s :=
        match pdfs.get? pdfIndex with
        | some none => _savePageManager s
        | some (some pdf) =>
          { s with
            pageManagers := s.pageManagers.put index (c.initializePDFManager (some pdf)) }
        | none =>
          { s with pageManagers := s.pageManagers.put index (c.initializePDFManager none) }
      let data : PageMetadata :=
        { axes := filterPages page.axes (s.axesByFile.get index)
          datasets := filterPages page.datasets (s.datasetsByFile.get index)
          measurements := filterPages page.measurements (s.measurementsByFile.get index) }
      match s.pageManagers.get index with
      | some pageManager =>
        reconstructPages c page pdfs rest (index + 1) (pdfIndex + 1)
          (emit (.loadPageData pageManager data) s)
      | none => .error s
    else reconstructPages c page pdfs rest (index + 1) pdfIndex s

/-- The callback of `Promise.all(pdfs).then` in `loadMetadata`: it runs once
all fetches have settled, on the state the manager has by then. -/
def loadMetadataThen (c : Collaborators) (page : PageMetadata) (pdfs : List (Option Pdf))
    (s : State) : Except State State :=
  match reconstructPages c page pdfs s.files 0 0 s with
  | .ok s => .ok (emit .treeRefresh s)
  | .error s => .error s

/-- The state an operation leaves, whether it returned or threw. -/
def outcome : Except State State → State
  | .ok s => s
  | .error s => s

end FileManager

/-! ## Sequences of operations -/

/-- One call of a method of the file manager that writes state, or the
settling of the fetches that an earlier `loadMetadata` started. -/
inductive Op where
  | reset
  | set (files : List Document)
  | switch (index : Int)
  | refreshPageInfo
  | addAxes (axes : List Entity)
  | addDatasets (datasets : List Entity)
  | addMeasurements (measurements : List Entity)
  | deleteDatasets (datasets : List Entity)
  | deleteMeasurements (measurements : List Entity)
  | getMetadata
  | loadMetadata (metadata : Metadata)
  | fetchesSettled (page : PageMetadata) (pdfs : List (Option Pdf))
deriving DecidableEq, Repr

/-- The state after one operation. -/
def step (c : Collaborators) : Op → State → State
  | .reset, s => FileManager.reset s
  | .set files, s => FileManager.set files s
  | .switch index, s => FileManager.switch c index s
  | .refreshPageInfo, s => FileManager.refreshPageInfo c s
  | .addAxes axes, s => FileManager.addAxesToCurrentFile axes s
  | .addDatasets datasets, s => FileManager.addDatasetsToCurrentFile datasets s
  | .addMeasurements measurements, s => FileManager.addMeasurementsToCurrentFile measurements s
  | .deleteDatasets datasets, s => FileManager.deleteDatasetsFromCurrentFile datasets s
  | .deleteMeasurements measurements, s =>
    FileManager.deleteMeasurementsFromCurrentFile measurements s
  | .getMetadata, s => (FileManager.getMetadata c s).2
  | .loadMetadata metadata, s => FileManager.outcome (FileManager.loadMetadata metadata s)
  | .fetchesSettled page pdfs, s =>
    FileManager.outcome (FileManager.loadMetadataThen c page pdfs s)

/-- The state after a sequence of operations, first to last. -/
def run (c : Collaborators) : List Op → State → State
  | [], s => s
  | op :: ops, s => run c ops (step c op s)

/-- The arguments on which `parseInt(index, 10)` returns `index`, and on
which `FileManager.parseInt` is the call of the source: the integers strictly
between `-10 ^ 21` and `10 ^ 21`. -/
def parseIntExact (index : Int) : Bool :=
  decide (-1000000000000000000000 < index ∧ index < 1000000000000000000000)

/-- The condition under which an operation keeps the current index inside
the registry: a `set` is given more files than the current index (or the
current index is 0, as after `reset`), and a `switch` is asked for an index
that `parseInt` returns as it is (below `10 ^ 21` in absolute value) and that
is not the file count. -/
def keepsIndexInRange : Op → State → Bool
  | .set files, s => decide (s.currentIndex = 0 ∨ s.currentIndex < (files.length : Int))
  | .switch index, s =>
    parseIntExact index && decide (index ≠ (s.files.length : Int))
  | _, _ => true

/-- Every operation of the sequence meets `keepsIndexInRange` in the state it
is applied to. -/
def allKeepIndexInRange (c : Collaborators) : List Op → State → Bool
  | [], _ => true
  | op :: ops, s => keepsIndexInRange op s && allKeepIndexInRange c ops (step c op s)

/-- The invariant of the registry: the current index is a position of the
file list, or is 0 when the list is empty. -/
def IndexInRange (s : State) : Prop :=
  (0 ≤ s.currentIndex ∧ s.currentIndex < (s.files.length : Int))
    ∨ (s.currentIndex = 0 ∧ s.files = [])

/-- The operations that the association maps only grow under: `set`,
`switch` and the three `add...ToCurrentFile`. -/
def isLoadSwitchAdd : Op → Bool
  | .set _ => true
  | .switch _ => true
  | .addAxes _ => true
  | .addDatasets _ => true
  | .addMeasurements _ => true
  | _ => false

/-- Names are unique across the files of an association map: two entities
with one name are listed under one index only. -/
def NamesUnique (o : Obj (List Entity)) : Prop :=
  ∀ p ∈ o, ∀ q ∈ o, ∀ e ∈ p.2, ∀ e' ∈ q.2, e.name = e'.name → p.1 = q.1

instance (o : Obj (List Entity)) : Decidable (NamesUnique o) := by
  unfold NamesUnique
  infer_instance

/-- The result is the intersection of the candidates with the set stored for
the current file (`members`, `none` when there is no set): it has exactly the
candidates that are members, in the order and number of the candidate list,
and is empty when there is no set. -/
def IsIntersection (result candidates : List Entity) (members : Option (List Entity)) :
    Prop :=
  (∀ e, e ∈ result ↔ e ∈ candidates ∧ ∃ l, members = some l ∧ e ∈ l)
    ∧ result = candidates.filter (fun e => decide (e ∈ members.getD []))
    ∧ (members = none → result = [])

/-- No entity is a member of the sets of two different indices. -/
def Exclusive (o : Obj (List Entity)) : Prop :=
  ∀ i j e, e ∈ (o.get i).getD [] → e ∈ (o.get j).getD [] → i = j

/-- The test of `Exclusive` over the keys of the object. -/
def exclusiveKeys (o : Obj (List Entity)) : Bool :=
  decide (∀ i ∈ o.keys, ∀ j ∈ o.keys, ∀ e ∈ (o.get i).getD [], e ∈ (o.get j).getD [] → i = j)

/-- None of the entities is a member of the set of an index other than `key`. -/
def freshElsewhere (o : Obj (List Entity)) (key : Int) (es : List Entity) : Bool :=
  decide (∀ e ∈ es, ∀ j ∈ o.keys, j ≠ key → e ∉ (o.get j).getD [])

/-- The condition of the `else` branch of the file part of `loadMetadata`: no
entity of the plot data is associated with a file other than 0. -/
def plotDataFreshElsewhere (s : State) : Bool :=
  freshElsewhere s.axesByFile 0 s.app.plotData.axesColl
    && freshElsewhere s.datasetsByFile 0 s.app.plotData.datasets
    && freshElsewhere s.measurementsByFile 0 s.app.plotData.measurementColl

/-- The condition under which an operation keeps every entity under one
index: an `add...ToCurrentFile` is given entities that no other file holds; a
`loadMetadata` that installs a `file` section installs maps that list no
entity under two indices, and one that takes the `else` branch finds no
entity of the plot data under a file other than 0. -/
def keepsExclusive : Op → State → Bool
  | .addAxes axes, s => freshElsewhere s.axesByFile s.currentIndex axes
  | .addDatasets datasets, s => freshElsewhere s.datasetsByFile s.currentIndex datasets
  | .addMeasurements measurements, s =>
    freshElsewhere s.measurementsByFile s.currentIndex measurements
  | .loadMetadata metadata, s =>
    match metadata.file with
    | some file =>
      if s.files.length > 1 then
        exclusiveKeys file.axes && exclusiveKeys file.datasets
          && exclusiveKeys file.measurements
      else plotDataFreshElsewhere s
    | none => plotDataFreshElsewhere s
  | _, _ => true

/-- Every operation of the sequence meets `keepsExclusive` in the state it is
applied to. -/
def allKeepExclusive (c : Collaborators) : List Op → State → Bool
  | [], _ => true
  | op :: ops, s => keepsExclusive op s && allKeepExclusive c ops (step c op s)

/-! ## Sample data -/

/-- Collaborators in which the accessors return the undo manager held in the
live slot (a fresh one, `0`, when the slot is empty), an undo manager can
undo exactly when its id is not `0`, and every page manager is empty. -/
def sampleCollaborators : Collaborators where
  getUndoManager := fun a => a.undoManager.getD ⟨0⟩
  getMultipageUndoManager := fun a => a.undoManager
  canUndo := fun u => decide (u.id ≠ 0)
  canRedo := fun _ => false
  isMultipage := fun a => a.pageManager.isSome
  getAxesNameMap := fun _ => []
  getDatasetNameMap := fun _ => []
  getMeasurementPageMap := fun _ => []
  initializePDFManager := fun pdf => ⟨(pdf.map Pdf.id).getD 0⟩

/-- An application state with nothing live and no entities. -/
def emptyApp : AppData :=
  { pageManager := none, undoManager := none, plotData := ⟨[], [], []⟩ }

/-- Three image files. -/
def threeImages : List Document :=
  [⟨"a.png", "image/png"⟩, ⟨"b.png", "image/png"⟩, ⟨"c.png", "image/png"⟩]

/-- Two image files. -/
def twoImages : List Document :=
  [⟨"a.png", "image/png"⟩, ⟨"b.png", "image/png"⟩]

/-- The registry of two images right after loading, document 0 current. -/
def twoImagesLoaded : State :=
  FileManager.set twoImages (FileManager.reset (FileManager.create emptyApp))

/-- A state reached by ordinary use: two images loaded, a switch to file 1,
one axes object added there. -/
def secondFileInUse : State :=
  FileManager.addAxesToCurrentFile [⟨1, "A1"⟩]
    (FileManager.switch sampleCollaborators 1 twoImagesLoaded)

/-- The current index, the file list and the three association maps agree. -/
def SameRegistry (s s' : State) : Prop :=
  s'.currentIndex = s.currentIndex ∧ s'.files = s.files ∧ s'.axesByFile = s.axesByFile
    ∧ s'.datasetsByFile = s.datasetsByFile ∧ s'.measurementsByFile = s.measurementsByFile

/-- Two PDF files. -/
def twoPdfs : List Document :=
  [⟨"a.pdf", "application/pdf"⟩, ⟨"b.pdf", "application/pdf"⟩]

/-- Collaborators of paginated files: the multipage undo manager is the one
in the live slot while a page manager is live, and no undo manager has
anything to undo or redo. -/
def pagedCollaborators : Collaborators :=
  { sampleCollaborators with
    getMultipageUndoManager := fun a => if a.pageManager.isSome then a.undoManager else none
    canUndo := fun _ => false }

/-- Two PDF files, both opened before (their page managers `1` and `2` are
cached); file 0 is current, its page manager `1` and its undo manager `7` are
live, and the history cache is empty. -/
def firstPdfLive : State :=
  { currentIndex := 0
    pageManagers := [(0, ⟨1⟩), (1, ⟨2⟩)]
    undoManagers := []
    axesByFile := []
    datasetsByFile := []
    measurementsByFile := []
    files := twoPdfs
    app := { pageManager := some ⟨1⟩, undoManager := some ⟨7⟩, plotData := ⟨[], [], []⟩ }
    effects := [] }

/-- A PDF file followed by an image file. -/
def pdfThenImage : List Document :=
  [⟨"a.pdf", "application/pdf"⟩, ⟨"b.png", "image/png"⟩]

/-- A state in which the PDF file 0 is current and opened for the first time:
its page manager `1` is live and not cached yet, the undo manager `5`, which
can undo, is live, and both caches are empty. -/
def firstPdfEdited : State :=
  FileManager.set pdfThenImage
    (FileManager.create
      { pageManager := some ⟨1⟩, undoManager := some ⟨5⟩, plotData := ⟨[], [], []⟩ })

/-- A state reached from two PDF files by a switch to file 1: the page
manager `1` of file 0 is cached, file 1 is current and opened for the first
time, so that its page manager `2` is live and not cached yet, and the undo
manager `5`, which can undo, is live. -/
def secondPdfEdited : State :=
  { currentIndex := 1
    pageManagers := [(0, ⟨1⟩)]
    undoManagers := []
    axesByFile := []
    datasetsByFile := []
    measurementsByFile := []
    files := twoPdfs
    app := { pageManager := some ⟨2⟩, undoManager := some ⟨5⟩, plotData := ⟨[], [], []⟩ }
    effects := [] }

/-- Collaborators in which the multipage undo manager is the one in the live
slot while a page manager is live and `null` otherwise, the plain undo
manager is the one in the live slot (a fresh one, `0`, when the slot is
empty), and an undo manager can undo exactly when its id is not `0`. -/
def multipageCollaborators : Collaborators :=
  { sampleCollaborators with
    getMultipageUndoManager := fun a => if a.pageManager.isSome then a.undoManager else none }

/-- The state of scenario 1: three files loaded, axes `A1` and `A2` added to
file 0, a switch to file 1, dataset `D1` added there. -/
def scenarioOne : State :=
  run sampleCollaborators [.switch 1, .addDatasets [⟨3, "D1"⟩]]
    (FileManager.addAxesToCurrentFile [⟨1, "A1"⟩, ⟨2, "A2"⟩]
      (FileManager.set threeImages (FileManager.create emptyApp)))

/-- The three association maps are exclusive. -/
def ExclusiveAll (s : State) : Prop :=
  Exclusive s.axesByFile ∧ Exclusive s.datasetsByFile ∧ Exclusive s.measurementsByFile

/-- A session in which each entity is added once: axes `A1` on file 0, axes
`A2` and dataset `D1` on file 1, `D1` removed again, then a project file
loaded whose `file` section lists `A1` under file 0 and `A2` under file 1. -/
def tidySession : List Op :=
  [.set twoImages, .addAxes [⟨1, "A1"⟩], .switch 1, .addAxes [⟨2, "A2"⟩],
    .addDatasets [⟨3, "D1"⟩], .deleteDatasets [⟨3, "D1"⟩],
    .loadMetadata
      { file := some
          { axes := [(0, [⟨1, "A1"⟩]), (1, [⟨2, "A2"⟩])], datasets := [], measurements := [] }
        page := none }]

/-- The lookup result `r` names the owner of `m` in `o`, whose entry
`(i, l)` is the set `l` of index `i`: it is absent exactly when no set holds
`m`, a result `i` is an index whose set holds `m`, and it is `i` whenever
the sets that hold `m` all belong to `i`. -/
def IsOwnerLookup (o : Obj (List Entity)) (m : Entity) (r : Option Int) : Prop :=
  (r = none ↔ ∀ p ∈ o, m ∉ p.2)
    ∧ (∀ i, r = some i → ∃ l, (i, l) ∈ o ∧ m ∈ l)
    ∧ (∀ i, (∃ l, (i, l) ∈ o ∧ m ∈ l) → (∀ p ∈ o, m ∈ p.2 → p.1 = i) → r = some i)

/-- One image file with nothing live, and three entities in the plot data. -/
def singleImageWithData : State :=
  FileManager.set [⟨"a.png", "image/png"⟩]
    (FileManager.create
      { pageManager := none
        undoManager := none
        plotData := ⟨[⟨1, "A1"⟩], [⟨2, "D1"⟩], [⟨3, "M1"⟩, ⟨4, "M2"⟩]⟩ })

/-- Two images; measurement `M1` belongs to file 0, `M2` to file 1, and `M3`
to no file. -/
def measurementsOnTwoFiles : State :=
  run sampleCollaborators
    [.set twoImages, .addMeasurements [⟨3, "M1"⟩], .switch 1, .addMeasurements [⟨4, "M2"⟩]]
    (FileManager.create
      { pageManager := none
        undoManager := none
        plotData := ⟨[], [], [⟨3, "M1"⟩, ⟨4, "M2"⟩, ⟨5, "M3"⟩]⟩ })

/-- Collaborators in which the page manager `1` has the measurement `M1` on
page key 0 and every other page manager has it on page key 3. -/
def pageZeroCollaborators : Collaborators :=
  { sampleCollaborators with
    getMeasurementPageMap := fun pm =>
      if pm.id = 1 then [(0, [⟨3, "M1"⟩])] else [(3, [⟨3, "M1"⟩])] }

/-- One PDF whose page manager `1` is live and cached; the measurement
collection is `[M1]`. -/
def onePdfPageZero : State :=
  { currentIndex := 0
    pageManagers := [(0, ⟨1⟩)]
    undoManagers := []
    axesByFile := []
    datasetsByFile := []
    measurementsByFile := []
    files := [⟨"a.pdf", "application/pdf"⟩]
    app := { pageManager := some ⟨1⟩, undoManager := none, plotData := ⟨[], [], [⟨3, "M1"⟩]⟩ }
    effects := [] }

/-- Two PDFs with cached page managers `1` and `2`; the measurement
collection is `[M1]`. -/
def twoPdfsPageZero : State :=
  { onePdfPageZero with pageManagers := [(0, ⟨1⟩), (1, ⟨2⟩)], files := twoPdfs }

/-- Three images, file 1 current with the page manager `4` live, and the page
manager `9` cached for file 2. -/
def thirdFileCached : State :=
  { currentIndex := 1
    pageManagers := [(2, ⟨9⟩)]
    undoManagers := []
    axesByFile := []
    datasetsByFile := []
    measurementsByFile := []
    files := threeImages
    app := { pageManager := some ⟨4⟩, undoManager := none, plotData := ⟨[], [], []⟩ }
    effects := [] }

/-- The indices of the PDF files, in order, the first file of the list
having index `index`. -/
def pdfIndices : List Document → Nat → List Nat
  | [], _ => []
  | f :: rest, index =>
    if f.type = "application/pdf" then index :: pdfIndices rest (index + 1)
    else pdfIndices rest (index + 1)

/-- The object that the callback of `loadMetadata` builds for file `d`
(`pageAxes`, `pageDatasets`, `pageMeasurements`) from the `page` section and
the association sets of `d`. -/
def handedPageData (page : PageMetadata) (s : State) (d : Int) : PageMetadata :=
  { axes := FileManager.filterPages page.axes (s.axesByFile.get d)
    datasets := FileManager.filterPages page.datasets (s.datasetsByFile.get d)
    measurements := FileManager.filterPages page.measurements (s.measurementsByFile.get d) }

/-- The page manager that receives the page data of file `d`: the one held
for file 0 (`pm0`), and for a later file the one built from its parsed PDF. -/
def pageManagerAt (c : Collaborators) (parsed : Nat → Pdf) (pm0 : PageManager) (d : Nat) :
    PageManager :=
  if d = 0 then pm0 else c.initializePDFManager (some (parsed d))

/-- The map `result` has the page keys of `pages`, and under each key the
entries of `pages` that are members of `members`, in their order (none of
them when `members` is absent). -/
def IsPagesFilteredBy (result pages : Obj (List Entity)) (members : Option (List Entity)) :
    Prop :=
  (∀ key, result.get key
      = (pages.get key).map (fun entries => entries.filter (fun e => decide (e ∈ members.getD []))))
    ∧ (members = none → ∀ key entries, result.get key = some entries → entries = [])

/-- The `page` section of scenario 3: axes `A1` on page 1 and `A2` on page 2,
dataset `D1` on page 1, measurement `M1` on page 2. -/
def scenarioThreePage : PageMetadata :=
  { axes := [(1, [⟨1, "A1"⟩]), (2, [⟨2, "A2"⟩])]
    datasets := [(1, [⟨3, "D1"⟩])]
    measurements := [(2, [⟨4, "M1"⟩])] }

/-- Scenario 3 after `loadMetadata` has returned: two PDFs are loaded, file 0
is current with its page manager `1` live, the plot data holds the entities
of the `page` section, and the metadata had no `file` section. -/
def scenarioThree : State :=
  FileManager.outcome
    (FileManager.loadMetadata { file := none, page := some scenarioThreePage }
      (FileManager.set twoPdfs
        (FileManager.create
          { pageManager := some ⟨1⟩
            undoManager := none
            plotData := ⟨[⟨1, "A1"⟩, ⟨2, "A2"⟩], [⟨3, "D1"⟩], [⟨4, "M1"⟩]⟩ })))

/-! ## Reads after writes -/

theorem Obj.get_put_self {α : Type} (o : Obj α) (k : Int) (v : α) :
    (o.put k v).get k = some v := by
  induction o with
  | nil => simp [Obj.put, Obj.get]
  | cons p rest ih =>
    obtain ⟨k', v'⟩ := p
    by_cases h1 : k < k'
    · simp [Obj.put, Obj.get, h1]
    · by_cases h2 : k = k'
      · simp [Obj.put, Obj.get, h2]
      · have h3 : ¬ k' = k := fun h => h2 h.symm
        simp [Obj.put, Obj.get, h1, h2, h3, ih]

theorem Obj.get_put_of_ne {α : Type} (o : Obj α) (k j : Int) (v : α) (h : j ≠ k) :
    (o.put k v).get j = o.get j := by
  induction o with
  | nil =>
    have h' : ¬ k = j := fun e => h e.symm
    simp [Obj.put, Obj.get, h']
  | cons p rest ih =>
    obtain ⟨k', v'⟩ := p
    have hkj : ¬ k = j := fun e => h e.symm
    by_cases h1 : k < k'
    · simp [Obj.put, Obj.get, h1, hkj]
    · by_cases h2 : k = k'
      · subst h2
        simp [Obj.put, Obj.get, hkj]
      · by_cases h3 : k' = j
        · subst h3
          simp [Obj.put, Obj.get, h1, h2]
        · simp [Obj.put, Obj.get, h1, h2, h3, ih]

/-- Every index outside `0 .. files.length` (both ends included) is ignored
by `switch`. -/
theorem switch_ignored_of_lt_or_gt (c : Collaborators) (s : State) (i : Int)
    (h : i < 0 ∨ (s.files.length : Int) < i) : FileManager.switch c i s = s := by
  unfold FileManager.switch FileManager.parseInt
  have : ¬ (i ≠ s.currentIndex ∧ i > -1 ∧ i ≤ (s.files.length : Int)) := by
    rintro ⟨_, h1, h2⟩
    omega
  simp only [this, if_false]

/-! ## The steps of the switch protocol, field by field -/

theorem savePageManager_frame (s : State) :
    (FileManager._savePageManager s).currentIndex = s.currentIndex
      ∧ (FileManager._savePageManager s).undoManagers = s.undoManagers
      ∧ (FileManager._savePageManager s).axesByFile = s.axesByFile
      ∧ (FileManager._savePageManager s).datasetsByFile = s.datasetsByFile
      ∧ (FileManager._savePageManager s).measurementsByFile = s.measurementsByFile
      ∧ (FileManager._savePageManager s).files = s.files
      ∧ (FileManager._savePageManager s).app = s.app
      ∧ (FileManager._savePageManager s).effects = s.effects := by
  unfold FileManager._savePageManager
  cases s.app.pageManager with
  | none => simp
  | some pm =>
    by_cases h : (s.pageManagers.get s.currentIndex).isNone = true
    · simp [h]
    · simp [h]

theorem savePageManager_get_of_ne (s : State) (j : Int) (h : j ≠ s.currentIndex) :
    (FileManager._savePageManager s).pageManagers.get j = s.pageManagers.get j := by
  unfold FileManager._savePageManager
  cases s.app.pageManager with
  | none => simp
  | some pm =>
    by_cases h' : (s.pageManagers.get s.currentIndex).isNone = true
    · simp [h', Obj.get_put_of_ne _ _ _ _ h]
    · simp [h']

theorem saveUndoManager_frame (c : Collaborators) (s : State) :
    (FileManager._saveUndoManager c s).currentIndex = s.currentIndex
      ∧ (FileManager._saveUndoManager c s).pageManagers = s.pageManagers
      ∧ (FileManager._saveUndoManager c s).axesByFile = s.axesByFile
      ∧ (FileManager._saveUndoManager c s).datasetsByFile = s.datasetsByFile
      ∧ (FileManager._saveUndoManager c s).measurementsByFile = s.measurementsByFile
      ∧ (FileManager._saveUndoManager c s).files = s.files
      ∧ (FileManager._saveUndoManager c s).app = s.app
      ∧ (FileManager._saveUndoManager c s).effects = s.effects := by
  unfold FileManager._saveUndoManager
  cases FileManager.undoManagerToSave c s <;> simp

theorem saveUndoManager_get_of_ne (c : Collaborators) (s : State) (j : Int)
    (h : j ≠ s.currentIndex) :
    (FileManager._saveUndoManager c s).undoManagers.get j = s.undoManagers.get j := by
  unfold FileManager._saveUndoManager
  cases FileManager.undoManagerToSave c s with
  | none => simp
  | some u => simp [Obj.get_put_of_ne _ _ _ _ h]

theorem fileAt_of_lt (files : List Document) (t : Int) (h0 : 0 ≤ t)
    (hlt : t < (files.length : Int)) :
    ∃ doc, files.get? t.toNat = some doc ∧ fileAt files t = some doc := by
  have hlt' : t.toNat < files.length := by omega
  refine ⟨files.get ⟨t.toNat, hlt'⟩, List.get?_eq_get hlt', ?_⟩
  simp [fileAt, h0, List.get?_eq_get hlt']

/-- What an accepted `switch` does, field by field: the page manager is
saved first, and the undo manager is saved once the page manager of the
target has been installed. -/
theorem switch_accepted (c : Collaborators) (s : State) (t : Int)
    (hne : t ≠ s.currentIndex) (h0 : 0 ≤ t) (hle : t ≤ (s.files.length : Int)) :
    (FileManager.switch c t s).currentIndex = t
      ∧ (FileManager.switch c t s).pageManagers = (FileManager._savePageManager s).pageManagers
      ∧ (FileManager.switch c t s).undoManagers
          = (FileManager._saveUndoManager c
              (FileManager._loadPageManager t (FileManager._savePageManager s))).undoManagers
      ∧ (FileManager.switch c t s).app.pageManager
          = (FileManager._savePageManager s).pageManagers.get t
      ∧ (FileManager.switch c t s).app.undoManager
          = (FileManager._saveUndoManager c
              (FileManager._loadPageManager t (FileManager._savePageManager s))).undoManagers.get t
      ∧ (FileManager.switch c t s).app.plotData = s.app.plotData
      ∧ (FileManager.switch c t s).axesByFile = s.axesByFile
      ∧ (FileManager.switch c t s).datasetsByFile = s.datasetsByFile
      ∧ (FileManager.switch c t s).measurementsByFile = s.measurementsByFile
      ∧ (FileManager.switch c t s).files = s.files
      ∧ (FileManager.switch c t s).effects
          = s.effects ++ [.loadFromFile (fileAt s.files t) true, .treeRefresh] := by
  have hcond : t ≠ s.currentIndex ∧ t > -1 ∧ t ≤ (s.files.length : Int) :=
    ⟨hne, by omega, hle⟩
  obtain ⟨_, _, p3, p4, p5, p6, p7, p8⟩ := savePageManager_frame s
  obtain ⟨_, u2, u3, u4, u5, u6, u7, u8⟩ :=
    saveUndoManager_frame c (FileManager._loadPageManager t (FileManager._savePageManager s))
  unfold FileManager.switch FileManager.parseInt
  rw [if_pos hcond]
  refine ⟨rfl, ?_, rfl, ?_, rfl, ?_, ?_, ?_, ?_, ?_, ?_⟩
  · exact u2
  · show (FileManager._saveUndoManager c _).app.pageManager = _
    rw [u7]
    rfl
  · show (FileManager._saveUndoManager c _).app.plotData = _
    rw [u7]
    show (FileManager._savePageManager s).app.plotData = _
    rw [p7]
  · show (FileManager._saveUndoManager c _).axesByFile = _
    rw [u3]
    exact p3
  · show (FileManager._saveUndoManager c _).datasetsByFile = _
    rw [u4]
    exact p4
  · show (FileManager._saveUndoManager c _).measurementsByFile = _
    rw [u5]
    exact p5
  · show (FileManager._saveUndoManager c _).files = _
    rw [u6]
    exact p6
  · show ((FileManager._saveUndoManager c _).effects
        ++ [Effect.loadFromFile (fileAt (FileManager._saveUndoManager c _).files t) true])
        ++ [Effect.treeRefresh] = _
    rw [u6, u8]
    show ((FileManager._savePageManager s).effects
        ++ [Effect.loadFromFile (fileAt (FileManager._savePageManager s).files t) true])
        ++ [Effect.treeRefresh] = _
    rw [p6, p8]
    simp

/-- What `set` does to the fields of the manager: only the file list
changes. -/
theorem set_frame (files : List Document) (s : State) :
    (FileManager.set files s).files = files
      ∧ (FileManager.set files s).currentIndex = s.currentIndex
      ∧ (FileManager.set files s).pageManagers = s.pageManagers
      ∧ (FileManager.set files s).undoManagers = s.undoManagers
      ∧ (FileManager.set files s).axesByFile = s.axesByFile
      ∧ (FileManager.set files s).datasetsByFile = s.datasetsByFile
      ∧ (FileManager.set files s).measurementsByFile = s.measurementsByFile := by
  unfold FileManager.set
  by_cases h : files.length > 1
  · simp [h, FileManager._showFileInfo, FileManager._initializeInput, FileManager.emit]
  · simp [h, FileManager._hideFileInfo, FileManager._initializeInput, FileManager.emit]

/-! ## Claims about `switch`, `set` and `reset` -/

/-- C1, at the index equal to the file count: with two files loaded and file
0 current, `switch(2)` is not ignored.  It makes 2 the current index,
requests a content load of `files[2]` (which is `undefined`) and refreshes
the tree. -/
theorem switch_at_fileCount_not_ignored :
    FileManager.fileCount twoImagesLoaded = 2
      ∧ twoImagesLoaded.currentIndex = 0
      ∧ (FileManager.switch sampleCollaborators 2 twoImagesLoaded).currentIndex = 2
      ∧ (FileManager.switch sampleCollaborators 2 twoImagesLoaded).effects
          = twoImagesLoaded.effects ++ [.loadFromFile none true, .treeRefresh] := by
  refine ⟨rfl, rfl, rfl, ?_⟩
  exact (switch_accepted sampleCollaborators twoImagesLoaded 2
    (by decide) (by decide) (by decide)).2.2.2.2.2.2.2.2.2.2

/-- C2 as stated fails: `set` on a manager whose current index is 1 and whose
axes association is not empty leaves both as they were. -/
theorem set_keeps_index_and_associations :
    (FileManager.set threeImages secondFileInUse).files = threeImages
      ∧ (FileManager.set threeImages secondFileInUse).currentIndex = 1
      ∧ (FileManager.set threeImages secondFileInUse).axesByFile = [(1, [⟨1, "A1"⟩])] := by
  refine ⟨rfl, rfl, rfl⟩

/-- C2 amended: `set` replaces the file list and leaves the current index,
both caches and the three association maps as they were; `reset` followed by
`set` leaves the given list, current index 0, both caches empty and the three
association maps empty. -/
theorem set_replaces_files_only (files : List Document) (s : State) :
    ((FileManager.set files s).files = files
      ∧ (FileManager.set files s).currentIndex = s.currentIndex
      ∧ (FileManager.set files s).pageManagers = s.pageManagers
      ∧ (FileManager.set files s).undoManagers = s.undoManagers
      ∧ (FileManager.set files s).axesByFile = s.axesByFile
      ∧ (FileManager.set files s).datasetsByFile = s.datasetsByFile
      ∧ (FileManager.set files s).measurementsByFile = s.measurementsByFile)
    ∧ ((FileManager.set files (FileManager.reset s)).files = files
      ∧ (FileManager.set files (FileManager.reset s)).currentIndex = 0
      ∧ (FileManager.set files (FileManager.reset s)).pageManagers = []
      ∧ (FileManager.set files (FileManager.reset s)).undoManagers = []
      ∧ (FileManager.set files (FileManager.reset s)).axesByFile = []
      ∧ (FileManager.set files (FileManager.reset s)).datasetsByFile = []
      ∧ (FileManager.set files (FileManager.reset s)).measurementsByFile = []) := by
  refine ⟨set_frame files s, ?_⟩
  obtain ⟨h1, h2, h3, h4, h5, h6, h7⟩ := set_frame files (FileManager.reset s)
  exact ⟨h1, h2, h3, h4, h5, h6, h7⟩

/-- C4: `switch` with the current index leaves the whole state as it is: the
current index, both caches, the live page manager and undo manager, and the
request log (no content load, no tree refresh). -/
theorem switch_to_current_ignored (c : Collaborators) (s : State) :
    FileManager.switch c s.currentIndex s = s := by
  unfold FileManager.switch FileManager.parseInt
  simp

/-- C7: a `switch` to a valid target `t` other than the current index makes
`t` current, installs the page manager and the undo manager cached for `t`
(`none` when there is none; the cache entries of `t` are not changed by the
switch), and sends exactly two requests: one content load of `files[t]` with
the flag set, then one tree refresh. -/
theorem switch_installs_target (c : Collaborators) (s : State) (t : Int)
    (hne : t ≠ s.currentIndex) (h0 : 0 ≤ t) (hlt : t < (s.files.length : Int)) :
    ∃ doc, s.files.get? t.toNat = some doc
      ∧ (FileManager.switch c t s).currentIndex = t
      ∧ (FileManager.switch c t s).app.pageManager = s.pageManagers.get t
      ∧ (FileManager.switch c t s).pageManagers.get t = s.pageManagers.get t
      ∧ (FileManager.switch c t s).app.undoManager = s.undoManagers.get t
      ∧ (FileManager.switch c t s).undoManagers.get t = s.undoManagers.get t
      ∧ (FileManager.switch c t s).effects
          = s.effects ++ [.loadFromFile (some doc) true, .treeRefresh] := by
  obtain ⟨doc, hdoc, hfile⟩ := fileAt_of_lt s.files t h0 hlt
  obtain ⟨a1, a2, a3, a4, a5, _, _, _, _, _, a11⟩ :=
    switch_accepted c s t hne h0 (le_of_lt hlt)
  obtain ⟨p1, p2, _⟩ := savePageManager_frame s
  have hp := savePageManager_get_of_ne s t hne
  have hu := saveUndoManager_get_of_ne c
    (FileManager._loadPageManager t (FileManager._savePageManager s)) t
    (by
      show t ≠ (FileManager._savePageManager s).currentIndex
      rw [p1]
      exact hne)
  have hu' : (FileManager._loadPageManager t (FileManager._savePageManager s)).undoManagers
      = s.undoManagers := p2
  refine ⟨doc, hdoc, a1, ?_, ?_, ?_, ?_, ?_⟩
  · rw [a4, hp]
  · rw [a2, hp]
  · rw [a5, hu, hu']
  · rw [a3, hu, hu']
  · rw [a11, hfile]

/-- C7 at a concrete input: three images, file 0 current, switch to file 2. -/
theorem switch_installs_target_witness :
    ∃ doc, threeImages.get? 2 = some doc
      ∧ (FileManager.switch sampleCollaborators 2
          (FileManager.set threeImages (FileManager.create emptyApp))).currentIndex = 2 := by
  obtain ⟨doc, h1, h2, _⟩ :=
    switch_installs_target sampleCollaborators
      (FileManager.set threeImages (FileManager.create emptyApp)) 2
      (by decide) (by decide) (by decide)
  exact ⟨doc, h1, h2⟩

/-! ## What the operations leave alone -/

theorem SameRegistry.rfl' (s : State) : SameRegistry s s := ⟨rfl, rfl, rfl, rfl, rfl⟩

theorem SameRegistry.trans' {s1 s2 s3 : State} (h12 : SameRegistry s1 s2)
    (h23 : SameRegistry s2 s3) : SameRegistry s1 s3 := by
  obtain ⟨a1, a2, a3, a4, a5⟩ := h12
  obtain ⟨b1, b2, b3, b4, b5⟩ := h23
  exact ⟨b1.trans a1, b2.trans a2, b3.trans a3, b4.trans a4, b5.trans a5⟩

theorem sameRegistry_emit (e : Effect) (s : State) : SameRegistry s (FileManager.emit e s) :=
  ⟨rfl, rfl, rfl, rfl, rfl⟩

theorem sameRegistry_savePageManager (s : State) :
    SameRegistry s (FileManager._savePageManager s) := by
  obtain ⟨p1, _, p3, p4, p5, p6, _, _⟩ := savePageManager_frame s
  exact ⟨p1, p6, p3, p4, p5⟩

theorem sameRegistry_switch (c : Collaborators) (i : Int) (s : State) :
    (FileManager.switch c i s).files = s.files
      ∧ (FileManager.switch c i s).axesByFile = s.axesByFile
      ∧ (FileManager.switch c i s).datasetsByFile = s.datasetsByFile
      ∧ (FileManager.switch c i s).measurementsByFile = s.measurementsByFile := by
  by_cases h : i ≠ s.currentIndex ∧ i > -1 ∧ i ≤ (s.files.length : Int)
  · obtain ⟨_, _, _, _, _, _, a7, a8, a9, a10, _⟩ :=
      switch_accepted c s i h.1 (by omega) h.2.2
    exact ⟨a10, a7, a8, a9⟩
  · unfold FileManager.switch FileManager.parseInt
    rw [if_neg h]
    exact ⟨rfl, rfl, rfl, rfl⟩

theorem sameRegistry_startFetches (files : List Document) (index : Nat) (s : State) :
    SameRegistry s (FileManager.startFetches files index s) := by
  induction files generalizing index s with
  | nil => exact SameRegistry.rfl' s
  | cons f rest ih =>
    unfold FileManager.startFetches
    by_cases h : f.type = "application/pdf" ∧ index > 0
    · rw [if_pos h]
      exact SameRegistry.trans' (sameRegistry_emit _ s) (ih _ _)
    · rw [if_neg h]
      exact ih _ _

theorem sameRegistry_reconstructPages (c : Collaborators) (page : PageMetadata)
    (pdfs : List (Option Pdf)) (files : List Document) (index pdfIndex : Nat) (s : State) :
    SameRegistry s (FileManager.outcome
      (FileManager.reconstructPages c page pdfs files index pdfIndex s)) := by
  induction files generalizing index pdfIndex s with
  | nil => exact SameRegistry.rfl' s
  | cons f rest ih =>
    unfold FileManager.reconstructPages
    by_cases h : f.type = "application/pdf"
    · rw [if_pos h]
      have hs : ∀ s1 : State, SameRegistry s s1 →
          SameRegistry s (FileManager.outcome
            (match s1.pageManagers.get index with
              | some pageManager =>
                FileManager.reconstructPages c page pdfs rest (index + 1) (pdfIndex + 1)
                  (FileManager.emit (.loadPageData pageManager
                    { axes := FileManager.filterPages page.axes (s1.axesByFile.get index)
                      datasets :=
                        FileManager.filterPages page.datasets (s1.datasetsByFile.get index)
                      measurements :=
                        FileManager.filterPages page.measurements
                          (s1.measurementsByFile.get index) }) s1)
              | none => .error s1)) := by
        intro s1 h1
        cases s1.pageManagers.get index with
        | none => exact h1
        | some pm =>
          exact SameRegistry.trans' (SameRegistry.trans' h1 (sameRegistry_emit _ s1)) (ih _ _ _)
      cases hp : pdfs.get? pdfIndex with
      | none => exact hs _ ⟨rfl, rfl, rfl, rfl, rfl⟩
      | some o =>
        cases o with
        | none => exact hs _ (sameRegistry_savePageManager s)
        | some pdf => exact hs _ ⟨rfl, rfl, rfl, rfl, rfl⟩
    · rw [if_neg h]
      exact ih _ _ _

theorem sameRegistry_loadMetadataThen (c : Collaborators) (page : PageMetadata)
    (pdfs : List (Option Pdf)) (s : State) :
    SameRegistry s (FileManager.outcome (FileManager.loadMetadataThen c page pdfs s)) := by
  have h := sameRegistry_reconstructPages c page pdfs s.files 0 0 s
  unfold FileManager.loadMetadataThen
  cases hr : FileManager.reconstructPages c page pdfs s.files 0 0 s with
  | error s1 =>
    rw [hr] at h
    exact h
  | ok s1 =>
    rw [hr] at h
    exact SameRegistry.trans' h (sameRegistry_emit _ s1)

/-- The page part of `loadMetadata` changes neither the current index, the
file list nor the association maps that the file part has set. -/
theorem sameRegistry_loadMetadata (metadata : Metadata) (s : State) :
    SameRegistry (FileManager.loadFileMetadata metadata s)
      (FileManager.outcome (FileManager.loadMetadata metadata s)) := by
  unfold FileManager.loadMetadata
  cases metadata.page with
  | none => exact SameRegistry.rfl' _
  | some page =>
    by_cases h : (FileManager.loadFileMetadata metadata s).files.length > 1
    · simp only [h, if_true]
      exact sameRegistry_startFetches _ _ _
    · simp only [h, if_false]
      cases (FileManager.loadFileMetadata metadata s).pageManagers.get 0 with
      | none => exact SameRegistry.rfl' _
      | some pm => exact sameRegistry_emit _ _

theorem loadFileMetadata_index_files (metadata : Metadata) (s : State) :
    (FileManager.loadFileMetadata metadata s).currentIndex = s.currentIndex
      ∧ (FileManager.loadFileMetadata metadata s).files = s.files := by
  unfold FileManager.loadFileMetadata FileManager.associateAllWithFirstFile
  cases metadata.file with
  | none => exact ⟨rfl, rfl⟩
  | some file =>
    by_cases h : s.files.length > 1
    · simp [h]
    · simp [h]

/-! ## The current index stays inside the registry -/

/-- Every operation but `reset`, `set` and `switch` leaves the current index
and the file list as they are. -/
theorem step_index_files (c : Collaborators) (op : Op) (s : State)
    (h1 : op ≠ .reset) (h2 : ∀ files, op ≠ .set files) (h3 : ∀ i, op ≠ .switch i) :
    (step c op s).currentIndex = s.currentIndex ∧ (step c op s).files = s.files := by
  cases op with
  | reset => exact absurd rfl h1
  | set files => exact absurd rfl (h2 files)
  | switch i => exact absurd rfl (h3 i)
  | refreshPageInfo =>
    show (FileManager.refreshPageInfo c s).currentIndex = _
      ∧ (FileManager.refreshPageInfo c s).files = _
    unfold FileManager.refreshPageInfo
    cases c.isMultipage s.app <;> exact ⟨rfl, rfl⟩
  | addAxes _ => exact ⟨rfl, rfl⟩
  | addDatasets _ => exact ⟨rfl, rfl⟩
  | addMeasurements _ => exact ⟨rfl, rfl⟩
  | deleteDatasets _ => exact ⟨rfl, rfl⟩
  | deleteMeasurements _ => exact ⟨rfl, rfl⟩
  | getMetadata =>
    obtain ⟨p1, p2, _⟩ := sameRegistry_savePageManager s
    exact ⟨p1, p2⟩
  | loadMetadata metadata =>
    obtain ⟨p1, p2, _⟩ := sameRegistry_loadMetadata metadata s
    obtain ⟨q1, q2⟩ := loadFileMetadata_index_files metadata s
    exact ⟨p1.trans q1, p2.trans q2⟩
  | fetchesSettled page pdfs =>
    obtain ⟨p1, p2, _⟩ := sameRegistry_loadMetadataThen c page pdfs s
    exact ⟨p1, p2⟩

/-- One operation that meets `keepsIndexInRange` preserves the invariant. -/
theorem step_indexInRange (c : Collaborators) (op : Op) (s : State)
    (hinv : IndexInRange s) (hop : keepsIndexInRange op s = true) :
    IndexInRange (step c op s) := by
  by_cases h1 : op = .reset
  · subst h1
    exact Or.inr ⟨rfl, rfl⟩
  by_cases h2 : ∃ files, op = .set files
  · obtain ⟨files, rfl⟩ := h2
    obtain ⟨e2, e1, _⟩ := set_frame files s
    have hg : s.currentIndex = 0 ∨ s.currentIndex < (files.length : Int) := by
      simpa [keepsIndexInRange] using hop
    unfold IndexInRange
    show (0 ≤ (FileManager.set files s).currentIndex
        ∧ (FileManager.set files s).currentIndex < ((FileManager.set files s).files.length : Int))
      ∨ ((FileManager.set files s).currentIndex = 0 ∧ (FileManager.set files s).files = [])
    rw [e1, e2]
    have h0 : 0 ≤ s.currentIndex := by
      rcases hinv with h | h
      · exact h.1
      · omega
    rcases hg with hg | hg
    · cases files with
      | nil => exact Or.inr ⟨hg, rfl⟩
      | cons f rest =>
        left
        simp only [List.length_cons]
        omega
    · exact Or.inl ⟨h0, hg⟩
  by_cases h3 : ∃ i, op = .switch i
  · obtain ⟨i, rfl⟩ := h3
    have hg : i ≠ (s.files.length : Int) := by
      have h := hop
      simp only [keepsIndexInRange, Bool.and_eq_true, decide_eq_true_eq] at h
      exact h.2
    show IndexInRange (FileManager.switch c i s)
    by_cases hacc : i ≠ s.currentIndex ∧ i > -1 ∧ i ≤ (s.files.length : Int)
    · obtain ⟨a1, _, _, _, _, _, _, _, _, a10, _⟩ :=
        switch_accepted c s i hacc.1 (by omega) hacc.2.2
      left
      rw [a1, a10]
      omega
    · unfold FileManager.switch FileManager.parseInt
      rw [if_neg hacc]
      exact hinv
  · obtain ⟨e1, e2⟩ := step_index_files c op s h1
      (fun files h => h2 ⟨files, h⟩) (fun i h => h3 ⟨i, h⟩)
    unfold IndexInRange
    rw [e1, e2]
    exact hinv

/-- A sequence of operations that all meet `keepsIndexInRange` preserves the
invariant. -/
theorem run_indexInRange (c : Collaborators) (ops : List Op) (s : State)
    (hinv : IndexInRange s) (hops : allKeepIndexInRange c ops s = true) :
    IndexInRange (run c ops s) := by
  induction ops generalizing s with
  | nil => exact hinv
  | cons op ops ih =>
    have h : keepsIndexInRange op s = true ∧ allKeepIndexInRange c ops (step c op s) = true := by
      simpa [allKeepIndexInRange] using hops
    exact ih (step c op s) (step_indexInRange c op s hinv h.1) h.2

/-- C3 as stated fails: load three files, switch to file 2, then load one
file.  Every call is a valid one, and the current index ends as 2 in a
registry of one file. -/
theorem set_shorter_list_leaves_index_outside :
    (run sampleCollaborators
        [.set threeImages, .switch 2, .set [⟨"d.png", "image/png"⟩]]
        (FileManager.create emptyApp)).currentIndex = 2
      ∧ (run sampleCollaborators
        [.set threeImages, .switch 2, .set [⟨"d.png", "image/png"⟩]]
        (FileManager.create emptyApp)).files.length = 1 := by
  refine ⟨rfl, rfl⟩

/-- C3 amended: in every state reached from a freshly constructed manager by
a sequence of operations in which every `set` supplies more files than the
current index (or is made while the current index is 0, as right after
`reset`) and every `switch` is asked for an integer index below `10 ^ 21` in
absolute value (where `parseInt` returns its argument) other than the file
count, the current index is at least 0 and below the file count, or is 0
when there is no file. -/
theorem currentIndex_in_range (c : Collaborators) (app : AppData) (ops : List Op)
    (hops : allKeepIndexInRange c ops (FileManager.create app) = true) :
    (0 ≤ (run c ops (FileManager.create app)).currentIndex
        ∧ (run c ops (FileManager.create app)).currentIndex
            < ((run c ops (FileManager.create app)).files.length : Int))
      ∨ ((run c ops (FileManager.create app)).currentIndex = 0
        ∧ (run c ops (FileManager.create app)).files = []) :=
  run_indexInRange c ops (FileManager.create app) (Or.inr ⟨rfl, rfl⟩) hops

/-- C3 amended, at a concrete sequence: load three files, add axes, switch to
file 2, export, switch to file 7 (ignored), reset and load two files. -/
theorem currentIndex_in_range_witness :
    (0 ≤ (run sampleCollaborators
          [.set threeImages, .addAxes [⟨1, "A1"⟩], .switch 2, .getMetadata, .switch 7,
            .reset, .set twoImages]
          (FileManager.create emptyApp)).currentIndex
        ∧ (run sampleCollaborators
          [.set threeImages, .addAxes [⟨1, "A1"⟩], .switch 2, .getMetadata, .switch 7,
            .reset, .set twoImages]
          (FileManager.create emptyApp)).currentIndex
            < ((run sampleCollaborators
          [.set threeImages, .addAxes [⟨1, "A1"⟩], .switch 2, .getMetadata, .switch 7,
            .reset, .set twoImages]
          (FileManager.create emptyApp)).files.length : Int))
      ∨ ((run sampleCollaborators
          [.set threeImages, .addAxes [⟨1, "A1"⟩], .switch 2, .getMetadata, .switch 7,
            .reset, .set twoImages]
          (FileManager.create emptyApp)).currentIndex = 0
        ∧ (run sampleCollaborators
          [.set threeImages, .addAxes [⟨1, "A1"⟩], .switch 2, .getMetadata, .switch 7,
            .reset, .set twoImages]
          (FileManager.create emptyApp)).files = []) :=
  currentIndex_in_range sampleCollaborators emptyApp
    [.set threeImages, .addAxes [⟨1, "A1"⟩], .switch 2, .getMetadata, .switch 7,
      .reset, .set twoImages] (by decide)

/-! ## The history cache -/

/-- With no page manager cached for the current file, `_savePageManager`
leaves the live page manager (or nothing) under the current index. -/
theorem savePageManager_get_current (s : State)
    (hnone : s.pageManagers.get s.currentIndex = none) :
    (FileManager._savePageManager s).pageManagers.get s.currentIndex = s.app.pageManager := by
  unfold FileManager._savePageManager
  cases hp : s.app.pageManager with
  | none => simpa using hnone
  | some pm => simp [hnone, Obj.get_put_self]

/-- With nothing cached and nothing live, `_savePageManager` changes nothing. -/
theorem savePageManager_of_no_live (s : State) (hlive : s.app.pageManager = none) :
    FileManager._savePageManager s = s := by
  unfold FileManager._savePageManager
  rw [hlive]

/-- The branch of `_saveUndoManager` without a cached page manager makes the
emptiness test: on a valid switch away from the current file, when no page
manager is cached for it once the live one has been saved (none cached, none
live) and the plain undo manager handed out at that moment can neither undo
nor redo, the switch does not write the history cache. -/
theorem plain_empty_history_not_cached (c : Collaborators) (s : State) (t : Int)
    (hne : t ≠ s.currentIndex) (h0 : 0 ≤ t) (hlt : t < (s.files.length : Int))
    (hcached : s.pageManagers.get s.currentIndex = none)
    (hlive : s.app.pageManager = none)
    (hundo : c.canUndo (c.getUndoManager { s.app with pageManager := s.pageManagers.get t })
      = false)
    (hredo : c.canRedo (c.getUndoManager { s.app with pageManager := s.pageManagers.get t })
      = false) :
    (FileManager.switch c t s).undoManagers = s.undoManagers := by
  rw [(switch_accepted c s t hne h0 (le_of_lt hlt)).2.2.1, savePageManager_of_no_live s hlive]
  unfold FileManager._saveUndoManager FileManager.undoManagerToSave
  simp [FileManager._loadPageManager, hcached, hundo, hredo]

/-- C5, at a file with a cached page manager: two PDF files, file 0 current,
no entry in the history cache, and the live undo manager `7` can neither undo
nor redo.  After the valid switch to file 1 the history cache holds `7` for
file 0: in the branch of `_saveUndoManager` taken when a page manager is
cached, what `getMultipageUndoManager` returns is stored after a null test
only, without the emptiness test that the comment above the branch
announces and that the other branch makes. -/
theorem empty_history_cached_for_paged_file :
    FileManager.fileCount firstPdfLive = 2
      ∧ firstPdfLive.currentIndex = 0
      ∧ firstPdfLive.app.undoManager = some ⟨7⟩
      ∧ pagedCollaborators.getUndoManager firstPdfLive.app = ⟨7⟩
      ∧ pagedCollaborators.canUndo ⟨7⟩ = false
      ∧ pagedCollaborators.canRedo ⟨7⟩ = false
      ∧ firstPdfLive.undoManagers.get 0 = none
      ∧ (FileManager.switch pagedCollaborators 1 firstPdfLive).undoManagers.get 0
          = some ⟨7⟩ := by
  refine ⟨rfl, rfl, rfl, rfl, rfl, rfl, rfl, ?_⟩
  rw [(switch_accepted pagedCollaborators firstPdfLive 1
    (by decide) (by decide) (by decide)).2.2.1]
  rfl

/-- C6 as stated fails: the PDF file 0 is current, no page manager is cached
for it, its page manager `1` is live, and its live undo manager `5` can undo.
The multipage undo manager is handed out only while a page manager is live.
The switch to the image file 1 first clears the live page manager and then
asks for the multipage undo manager of file 0, gets `null` and caches
nothing; after the switch back to file 0 the page manager `1` is live again
and no undo manager is. -/
theorem round_trip_loses_history :
    firstPdfEdited.currentIndex = 0
      ∧ FileManager.fileCount firstPdfEdited = 2
      ∧ firstPdfEdited.pageManagers.get 0 = none
      ∧ firstPdfEdited.app.pageManager = some ⟨1⟩
      ∧ firstPdfEdited.app.undoManager = some ⟨5⟩
      ∧ multipageCollaborators.getUndoManager firstPdfEdited.app = ⟨5⟩
      ∧ multipageCollaborators.getMultipageUndoManager firstPdfEdited.app = some ⟨5⟩
      ∧ multipageCollaborators.canUndo ⟨5⟩ = true
      ∧ multipageCollaborators.getMultipageUndoManager
          { firstPdfEdited.app with pageManager := none } = none
      ∧ (FileManager.switch multipageCollaborators 1 firstPdfEdited).undoManagers.get 0 = none
      ∧ (FileManager.switch multipageCollaborators 0
          (FileManager.switch multipageCollaborators 1 firstPdfEdited)).currentIndex = 0
      ∧ (FileManager.switch multipageCollaborators 0
          (FileManager.switch multipageCollaborators 1 firstPdfEdited)).app.pageManager
            = some ⟨1⟩
      ∧ (FileManager.switch multipageCollaborators 0
          (FileManager.switch multipageCollaborators 1 firstPdfEdited)).app.undoManager
            = none := by
  refine ⟨rfl, rfl, rfl, rfl, rfl, rfl, rfl, rfl, rfl, ?_, ?_, ?_, ?_⟩ <;> decide

/-- C6 amended: let `A` be current with no page manager cached for it, let the
live undo manager `h` be able to undo or redo, and let the accessor of
`wpd.appData` that `switch(B)` reads the undo manager through hand out `h` at
the moment it is read, which is after the page manager cached for `B` (or
`null`) has been made the live one: `getUndoManager` when no page manager was
live for `A`, `getMultipageUndoManager` when one was.  Then `switch(B)`
followed by `switch(A)`, for a valid `B` other than `A`, ends with `A` current
and with the same page manager and the same undo manager live as before. -/
theorem switch_round_trip (c : Collaborators) (s : State) (A B : Int) (h : UndoManager)
    (hcur : s.currentIndex = A) (hAB : A ≠ B)
    (hA0 : 0 ≤ A) (hA : A < (s.files.length : Int))
    (hB0 : 0 ≤ B) (hB : B < (s.files.length : Int))
    (hcached : s.pageManagers.get A = none)
    (hlive : s.app.undoManager = some h)
    (hnonempty : c.canUndo h = true ∨ c.canRedo h = true)
    (hplain : s.app.pageManager = none →
      c.getUndoManager { s.app with pageManager := s.pageManagers.get B } = h)
    (hmulti : s.app.pageManager ≠ none →
      c.getMultipageUndoManager { s.app with pageManager := s.pageManagers.get B } = some h) :
    (FileManager.switch c A (FileManager.switch c B s)).currentIndex = A
      ∧ (FileManager.switch c A (FileManager.switch c B s)).app.pageManager = s.app.pageManager
      ∧ (FileManager.switch c A (FileManager.switch c B s)).app.undoManager
          = s.app.undoManager := by
  subst hcur
  obtain ⟨a1, a2, a3, _, _, _, _, _, _, a10, _⟩ :=
    switch_accepted c s B (fun e => hAB e.symm) hB0 (le_of_lt hB)
  -- the caches after the first switch
  have hpm : (FileManager.switch c B s).pageManagers.get s.currentIndex = s.app.pageManager := by
    rw [a2]
    exact savePageManager_get_current s hcached
  obtain ⟨p1, p2, _, _, _, _, p7, _⟩ := savePageManager_frame s
  have hsave : FileManager.undoManagerToSave c
      (FileManager._loadPageManager B (FileManager._savePageManager s)) = some h := by
    have happ : (FileManager._loadPageManager B (FileManager._savePageManager s)).app
        = { s.app with pageManager := s.pageManagers.get B } := by
      show ({ (FileManager._savePageManager s).app with
        pageManager := (FileManager._savePageManager s).pageManagers.get B } : AppData) = _
      rw [p7, savePageManager_get_of_ne s B (fun e => hAB e.symm)]
    have hkey : (FileManager._loadPageManager B (FileManager._savePageManager s)).pageManagers.get
        (FileManager._loadPageManager B (FileManager._savePageManager s)).currentIndex
          = s.app.pageManager := by
      show (FileManager._savePageManager s).pageManagers.get
        (FileManager._savePageManager s).currentIndex = _
      rw [p1]
      exact savePageManager_get_current s hcached
    unfold FileManager.undoManagerToSave
    rw [hkey, happ]
    cases hpmA : s.app.pageManager with
    | some pm =>
      simp only [Option.isSome_some, if_true]
      exact hmulti (by rw [hpmA]; exact Option.some_ne_none pm)
    | none =>
      simp only [Option.isSome_none, Bool.false_eq_true, if_false, hplain hpmA]
      rcases hnonempty with hn | hn <;> simp [hn]
  have hum : (FileManager.switch c B s).undoManagers.get s.currentIndex = some h := by
    rw [a3]
    unfold FileManager._saveUndoManager
    rw [hsave]
    show (Obj.put (FileManager._savePageManager s).undoManagers
      (FileManager._savePageManager s).currentIndex h).get s.currentIndex = some h
    rw [p1]
    exact Obj.get_put_self _ _ _
  -- the second switch
  have hne' : s.currentIndex ≠ (FileManager.switch c B s).currentIndex := by
    rw [a1]
    exact hAB
  have hle' : s.currentIndex ≤ ((FileManager.switch c B s).files.length : Int) := by
    rw [a10]
    exact le_of_lt hA
  obtain ⟨b1, _, _, b4, b5, _⟩ :=
    switch_accepted c (FileManager.switch c B s) s.currentIndex hne' hA0 hle'
  obtain ⟨q1, q2, _⟩ := savePageManager_frame (FileManager.switch c B s)
  refine ⟨b1, ?_, ?_⟩
  · rw [b4, savePageManager_get_of_ne _ _ hne', hpm]
  · rw [b5, saveUndoManager_get_of_ne c _ _ (by
      show s.currentIndex ≠ (FileManager._savePageManager (FileManager.switch c B s)).currentIndex
      rw [q1]
      exact hne')]
    show (FileManager._savePageManager (FileManager.switch c B s)).undoManagers.get
      s.currentIndex = _
    rw [q2, hum, hlive]

/-- C6 amended, at a concrete input: the PDF file 1 is opened for the first
time (its page manager `2` is live and not cached) with the undo manager `5`
live, and the page manager `1` is cached for the PDF file 0; the multipage
undo manager is handed out only while a page manager is live.  From file 1
to file 0 and back. -/
theorem switch_round_trip_witness :
    (FileManager.switch multipageCollaborators 1
        (FileManager.switch multipageCollaborators 0 secondPdfEdited)).currentIndex = 1
      ∧ (FileManager.switch multipageCollaborators 1
        (FileManager.switch multipageCollaborators 0 secondPdfEdited)).app.pageManager
          = some ⟨2⟩
      ∧ (FileManager.switch multipageCollaborators 1
        (FileManager.switch multipageCollaborators 0 secondPdfEdited)).app.undoManager
          = some ⟨5⟩ :=
  switch_round_trip multipageCollaborators secondPdfEdited 1 0 ⟨5⟩ rfl (by decide)
    (by decide) (by decide) (by decide) (by decide) rfl rfl (Or.inl rfl)
    (fun hnone => absurd hnone (by decide)) (fun _ => rfl)

/-! ## The association index -/

theorem NameMap.get_put_same_name (m : NameMap) (n : String) (v : Int) :
    (m.put n v).get n = some v := by
  induction m with
  | nil => simp [NameMap.put, NameMap.get]
  | cons p rest ih =>
    obtain ⟨n', v'⟩ := p
    by_cases h : n' = n
    · simp [NameMap.put, NameMap.get, h]
    · simp [NameMap.put, NameMap.get, h, ih]

theorem NameMap.get_put_other_name (m : NameMap) (n n2 : String) (v : Int) (h : n2 ≠ n) :
    (m.put n v).get n2 = m.get n2 := by
  induction m with
  | nil =>
    have h' : ¬ n = n2 := fun e => h e.symm
    simp [NameMap.put, NameMap.get, h']
  | cons p rest ih =>
    obtain ⟨n', v'⟩ := p
    by_cases h1 : n' = n
    · subst h1
      have h' : ¬ n' = n2 := fun e => h e.symm
      simp [NameMap.put, NameMap.get, h']
    · by_cases h2 : n' = n2
      · subst h2
        simp [NameMap.put, NameMap.get, h1]
      · simp [NameMap.put, NameMap.get, h1, h2, ih]

/-- Writing the names of a collection under one key: a name of the collection
ends up mapped to the key. -/
theorem writeNames_get_of_mem (items : List Entity) (key : Int) (m : NameMap) (n : String)
    (h : (∃ e ∈ items, e.name = n) ∨ m.get n = some key) :
    (items.foldl (fun map item => map.put item.name key) m).get n = some key := by
  induction items generalizing m with
  | nil =>
    rcases h with ⟨e, he, _⟩ | h
    · cases he
    · exact h
  | cons item rest ih =>
    simp only [List.foldl_cons]
    apply ih
    by_cases hn : item.name = n
    · right
      rw [hn]
      exact NameMap.get_put_same_name _ _ _
    · rcases h with ⟨e, he, hen⟩ | h
      · rcases List.mem_cons.mp he with rfl | he'
        · exact absurd hen hn
        · exact Or.inl ⟨e, he', hen⟩
      · right
        rw [NameMap.get_put_other_name _ _ _ _ (fun e => hn e.symm)]
        exact h

/-- Writing the names of a collection leaves every other name as it was. -/
theorem writeNames_get_of_not_mem (items : List Entity) (key : Int) (m : NameMap) (n : String)
    (h : ∀ e ∈ items, e.name ≠ n) :
    (items.foldl (fun map item => map.put item.name key) m).get n = m.get n := by
  induction items generalizing m with
  | nil => rfl
  | cons item rest ih =>
    simp only [List.foldl_cons]
    rw [ih _ (fun e he => h e (List.mem_cons_of_mem _ he))]
    exact NameMap.get_put_other_name _ _ _ _ (fun e => h item (List.mem_cons_self _ _) e.symm)

/-- The inversion loop: when every entry that lists the name `n` has key `i`,
and `n` is listed somewhere (or already mapped to `i`), `n` ends up mapped to
`i`. -/
theorem invert_loop_get (o : Obj (List Entity)) (m : NameMap) (n : String) (i : Int)
    (huniq : ∀ p ∈ o, ∀ e ∈ p.2, e.name = n → p.1 = i)
    (h : (∃ p ∈ o, ∃ e ∈ p.2, e.name = n) ∨ m.get n = some i) :
    (o.foldl
      (fun map entry => entry.2.foldl (fun map item => map.put item.name entry.1) map) m).get n
      = some i := by
  induction o generalizing m with
  | nil =>
    rcases h with ⟨p, hp, _⟩ | h
    · cases hp
    · exact h
  | cons entry rest ih =>
    simp only [List.foldl_cons]
    apply ih _ (fun p hp => huniq p (List.mem_cons_of_mem _ hp))
    by_cases hn : ∃ e ∈ entry.2, e.name = n
    · right
      obtain ⟨e, he, hen⟩ := hn
      have hk : entry.1 = i := huniq entry (List.mem_cons_self _ _) e he hen
      rw [← hk]
      exact writeNames_get_of_mem _ _ _ _ (Or.inl ⟨e, he, hen⟩)
    · have hn' : ∀ e ∈ entry.2, e.name ≠ n := fun e he hen => hn ⟨e, he, hen⟩
      rcases h with ⟨p, hp, e, he, hen⟩ | h
      · rcases List.mem_cons.mp hp with rfl | hp'
        · exact absurd hen (hn' e he)
        · exact Or.inl ⟨p, hp', e, he, hen⟩
      · right
        rw [writeNames_get_of_not_mem _ _ _ _ hn']
        exact h

theorem Obj.mem_of_get {α : Type} (o : Obj α) (k : Int) (v : α) (h : o.get k = some v) :
    (k, v) ∈ o := by
  induction o with
  | nil => simp [Obj.get] at h
  | cons p rest ih =>
    obtain ⟨k', v'⟩ := p
    by_cases hk : k' = k
    · simp only [Obj.get, hk, if_true, Option.some.injEq] at h
      rw [hk, h]
      exact List.mem_cons_self _ _
    · simp only [Obj.get, hk, if_false] at h
      exact List.mem_cons_of_mem _ (ih h)

/-- With names unique across files, the inverted map sends the name of every
member of the set of file `i` to `i`. -/
theorem invertObject_get (o : Obj (List Entity)) (i : Int) (e : Entity)
    (huniq : NamesUnique o) (hmem : e ∈ (o.get i).getD []) :
    (utils.invertObject o).get e.name = some i := by
  cases hget : o.get i with
  | none =>
    rw [hget] at hmem
    cases hmem
  | some l =>
    rw [hget] at hmem
    have hin : (i, l) ∈ o := Obj.mem_of_get o i l hget
    unfold utils.invertObject
    exact invert_loop_get o [] e.name i
      (fun p hp e' he' hn => huniq p hp (i, l) hin e' he' e hmem hn)
      (Or.inl ⟨(i, l), hin, e, hmem, rfl⟩)

/-- Adding entities puts them in the set of the key and keeps every member of
every set. -/
theorem addToCollection_mem (o : Obj (List Entity)) (key : Int) (objects : List Entity) :
    (∀ e ∈ objects, e ∈ ((utils.addToCollection o key objects).get key).getD [])
      ∧ (∀ j e, e ∈ (o.get j).getD [] →
        e ∈ ((utils.addToCollection o key objects).get j).getD []) := by
  unfold utils.addToCollection
  constructor
  · intro e he
    rw [Obj.get_put_self]
    exact List.mem_append_right _ he
  · intro j e he
    by_cases hj : j = key
    · subst hj
      rw [Obj.get_put_self]
      exact List.mem_append_left _ he
    · rw [Obj.get_put_of_ne _ _ _ _ hj]
      exact he

/-- The operations `set`, `switch` and `add...ToCurrentFile` keep every
member of every set of the axes map and of the datasets map. -/
theorem step_keeps_members (c : Collaborators) (op : Op) (s : State)
    (hop : isLoadSwitchAdd op = true) (j : Int) (e : Entity) :
    (e ∈ (s.axesByFile.get j).getD [] → e ∈ ((step c op s).axesByFile.get j).getD [])
      ∧ (e ∈ (s.datasetsByFile.get j).getD [] →
        e ∈ ((step c op s).datasetsByFile.get j).getD []) := by
  cases op with
  | set files =>
    obtain ⟨_, _, _, _, h5, h6, _⟩ := set_frame files s
    show (_ → e ∈ ((FileManager.set files s).axesByFile.get j).getD [])
      ∧ (_ → e ∈ ((FileManager.set files s).datasetsByFile.get j).getD [])
    rw [h5, h6]
    exact ⟨id, id⟩
  | switch i =>
    obtain ⟨_, h2, h3, _⟩ := sameRegistry_switch c i s
    show (_ → e ∈ ((FileManager.switch c i s).axesByFile.get j).getD [])
      ∧ (_ → e ∈ ((FileManager.switch c i s).datasetsByFile.get j).getD [])
    rw [h2, h3]
    exact ⟨id, id⟩
  | addAxes axes =>
    exact ⟨(addToCollection_mem s.axesByFile s.currentIndex axes).2 j e, id⟩
  | addDatasets datasets =>
    exact ⟨id, (addToCollection_mem s.datasetsByFile s.currentIndex datasets).2 j e⟩
  | addMeasurements _ => exact ⟨id, id⟩
  | reset => cases hop
  | refreshPageInfo => cases hop
  | deleteDatasets _ => cases hop
  | deleteMeasurements _ => cases hop
  | getMetadata => cases hop
  | loadMetadata _ => cases hop
  | fetchesSettled _ _ => cases hop

theorem run_keeps_members (c : Collaborators) (ops : List Op) (s : State)
    (hops : ops.all isLoadSwitchAdd = true) (j : Int) (e : Entity) :
    (e ∈ (s.axesByFile.get j).getD [] → e ∈ ((run c ops s).axesByFile.get j).getD [])
      ∧ (e ∈ (s.datasetsByFile.get j).getD [] →
        e ∈ ((run c ops s).datasetsByFile.get j).getD []) := by
  induction ops generalizing s with
  | nil => exact ⟨id, id⟩
  | cons op ops ih =>
    have h : isLoadSwitchAdd op = true ∧ ops.all isLoadSwitchAdd = true := by
      simpa using hops
    obtain ⟨k1, k2⟩ := step_keeps_members c op s h.1 j e
    obtain ⟨i1, i2⟩ := ih (step c op s) h.2
    exact ⟨fun hm => i1 (k1 hm), fun hm => i2 (k2 hm)⟩

/-- C8: take any state, add the entities `es` to the current file `i` (as
axes, or as datasets) and continue with any sequence of `set`, `switch` and
`add...ToCurrentFile` calls.  If the names in the resulting association map
are unique across files, the inverted name map (`getAxesNameMap`, or
`getDatasetNameMap`) sends the name of every entity of `es` to `i`. -/
theorem inverseNameMap_left_inverse (c : Collaborators) (s : State) (es : List Entity)
    (ops : List Op) (e : Entity) (hops : ops.all isLoadSwitchAdd = true) (he : e ∈ es) :
    (NamesUnique (run c ops (FileManager.addAxesToCurrentFile es s)).axesByFile →
        (FileManager.getAxesNameMap (run c ops (FileManager.addAxesToCurrentFile es s))).get
          e.name = some s.currentIndex)
      ∧ (NamesUnique (run c ops (FileManager.addDatasetsToCurrentFile es s)).datasetsByFile →
        (FileManager.getDatasetNameMap
          (run c ops (FileManager.addDatasetsToCurrentFile es s))).get e.name
            = some s.currentIndex) := by
  constructor
  · intro huniq
    refine invertObject_get _ _ _ huniq ?_
    refine (run_keeps_members c ops _ hops s.currentIndex e).1 ?_
    exact (addToCollection_mem s.axesByFile s.currentIndex es).1 e he
  · intro huniq
    refine invertObject_get _ _ _ huniq ?_
    refine (run_keeps_members c ops _ hops s.currentIndex e).2 ?_
    exact (addToCollection_mem s.datasetsByFile s.currentIndex es).1 e he

/-- C8 at scenario 1: the name `A1` is sent to file 0; the axes name map is
`{A1: 0, A2: 0}` and the dataset name map is `{D1: 1}`. -/
theorem inverseNameMap_left_inverse_witness :
    (FileManager.getAxesNameMap scenarioOne).get "A1" = some 0
      ∧ FileManager.getAxesNameMap scenarioOne = [("A1", 0), ("A2", 0)]
      ∧ FileManager.getDatasetNameMap scenarioOne = [("D1", 1)] :=
  ⟨(inverseNameMap_left_inverse sampleCollaborators
      (FileManager.set threeImages (FileManager.create emptyApp))
      [⟨1, "A1"⟩, ⟨2, "A2"⟩] [.switch 1, .addDatasets [⟨3, "D1"⟩]] ⟨1, "A1"⟩
      (by decide) (by decide)).1 (by decide),
    by decide, by decide⟩

/-- C9: each of the three filters returns the intersection of its argument
with the set stored for the current file: exactly the candidates that are
members of that set, and nothing when the current file has no set. -/
theorem filterToCurrent_is_intersection (s : State) (candidates : List Entity) :
    IsIntersection (FileManager.filterToCurrentFileAxes candidates s) candidates
        (s.axesByFile.get s.currentIndex)
      ∧ IsIntersection (FileManager.filterToCurrentFileDatasets candidates s) candidates
        (s.datasetsByFile.get s.currentIndex)
      ∧ IsIntersection (FileManager.filterToCurrentFileMeasurements candidates s) candidates
        (s.measurementsByFile.get s.currentIndex) := by
  have key : ∀ (o : Obj (List Entity)) (k : Int),
      IsIntersection (utils.filterCollection o k candidates) candidates (o.get k) := by
    intro o k
    unfold utils.filterCollection IsIntersection
    cases o.get k with
    | none => simp
    | some l => simp [List.mem_filter]
  exact ⟨key _ _, key _ _, key _ _⟩

/-! ## One index per entity -/

theorem Obj.mem_keys_of_get {α : Type} (o : Obj α) (k : Int) (v : α)
    (h : o.get k = some v) : k ∈ o.keys := by
  have hm := Obj.mem_of_get o k v h
  unfold Obj.keys
  exact List.mem_map.mpr ⟨(k, v), hm, rfl⟩

theorem mem_keys_of_mem_getD (o : Obj (List Entity)) (k : Int) (e : Entity)
    (h : e ∈ (o.get k).getD []) : k ∈ o.keys := by
  cases hg : o.get k with
  | none =>
    rw [hg] at h
    cases h
  | some l => exact Obj.mem_keys_of_get o k l hg

theorem exclusive_of_exclusiveKeys (o : Obj (List Entity)) (h : exclusiveKeys o = true) :
    Exclusive o := by
  unfold exclusiveKeys at h
  have h' := of_decide_eq_true h
  intro i j e hi hj
  exact h' i (mem_keys_of_mem_getD o i e hi) j (mem_keys_of_mem_getD o j e hj) e hi hj

theorem not_mem_of_freshElsewhere (o : Obj (List Entity)) (key : Int) (es : List Entity)
    (h : freshElsewhere o key es = true) (e : Entity) (he : e ∈ es) (j : Int) (hj : j ≠ key) :
    e ∉ (o.get j).getD [] := by
  unfold freshElsewhere at h
  have h' := of_decide_eq_true h
  intro hm
  exact h' e he j (mem_keys_of_mem_getD o j e hm) hj hm

/-- A write keeps the map exclusive when no entity written is a member of the
set of another index. -/
theorem exclusive_put (o : Obj (List Entity)) (key : Int) (v : List Entity)
    (hex : Exclusive o) (hfresh : ∀ e ∈ v, ∀ j, j ≠ key → e ∉ (o.get j).getD []) :
    Exclusive (o.put key v) := by
  intro i j e hi hj
  by_cases h1 : i = key
  · by_cases h2 : j = key
    · rw [h1, h2]
    · subst h1
      rw [Obj.get_put_self] at hi
      rw [Obj.get_put_of_ne _ _ _ _ h2] at hj
      exact absurd hj (hfresh e hi j h2)
  · by_cases h2 : j = key
    · subst h2
      rw [Obj.get_put_self] at hj
      rw [Obj.get_put_of_ne _ _ _ _ h1] at hi
      exact absurd hi (hfresh e hj i h1)
    · rw [Obj.get_put_of_ne _ _ _ _ h1] at hi
      rw [Obj.get_put_of_ne _ _ _ _ h2] at hj
      exact hex i j e hi hj

theorem exclusive_addToCollection (o : Obj (List Entity)) (key : Int) (es : List Entity)
    (hex : Exclusive o) (hfresh : freshElsewhere o key es = true) :
    Exclusive (utils.addToCollection o key es) := by
  unfold utils.addToCollection
  refine exclusive_put o key _ hex ?_
  intro e he j hj hm
  rcases List.mem_append.mp he with h | h
  · exact hj (hex j key e hm h)
  · exact not_mem_of_freshElsewhere o key es hfresh e h j hj hm

theorem exclusive_deleteFromCollection (o : Obj (List Entity)) (key : Int)
    (es : List Entity) (hex : Exclusive o) :
    Exclusive (utils.deleteFromCollection o key es) := by
  unfold utils.deleteFromCollection
  cases hg : o.get key with
  | none => exact hex
  | some members =>
    refine exclusive_put o key _ hex ?_
    intro e he j hj hm
    have he' : e ∈ (o.get key).getD [] := by
      rw [hg]
      exact (List.mem_filter.mp he).1
    exact hj (hex j key e hm he')

theorem exclusive_put_zero (o : Obj (List Entity)) (coll : List Entity)
    (hex : Exclusive o) (hfresh : freshElsewhere o 0 coll = true) :
    Exclusive (o.put 0 coll) :=
  exclusive_put o 0 coll hex
    (fun e he j hj => not_mem_of_freshElsewhere o 0 coll hfresh e he j hj)

theorem exclusiveAll_of_sameRegistry {s s' : State} (h : SameRegistry s s')
    (hex : ExclusiveAll s) : ExclusiveAll s' := by
  obtain ⟨_, _, h3, h4, h5⟩ := h
  unfold ExclusiveAll
  rw [h3, h4, h5]
  exact hex

theorem exclusiveAll_associateAll (s : State) (hex : ExclusiveAll s)
    (hfresh : plotDataFreshElsewhere s = true) :
    ExclusiveAll (FileManager.associateAllWithFirstFile s) := by
  have h : (freshElsewhere s.axesByFile 0 s.app.plotData.axesColl = true
      ∧ freshElsewhere s.datasetsByFile 0 s.app.plotData.datasets = true)
      ∧ freshElsewhere s.measurementsByFile 0 s.app.plotData.measurementColl = true := by
    simpa [plotDataFreshElsewhere] using hfresh
  exact ⟨exclusive_put_zero _ _ hex.1 h.1.1, exclusive_put_zero _ _ hex.2.1 h.1.2,
    exclusive_put_zero _ _ hex.2.2 h.2⟩

theorem exclusiveAll_loadFileMetadata (metadata : Metadata) (s : State)
    (hex : ExclusiveAll s) (hop : keepsExclusive (.loadMetadata metadata) s = true) :
    ExclusiveAll (FileManager.loadFileMetadata metadata s) := by
  unfold FileManager.loadFileMetadata
  cases hf : metadata.file with
  | none =>
    simp only [keepsExclusive, hf] at hop
    exact exclusiveAll_associateAll s hex hop
  | some file =>
    simp only [keepsExclusive, hf] at hop
    by_cases hl : s.files.length > 1
    · simp only [hl, if_true] at hop ⊢
      have h : (exclusiveKeys file.axes = true ∧ exclusiveKeys file.datasets = true)
          ∧ exclusiveKeys file.measurements = true := by
        simpa using hop
      exact ⟨exclusive_of_exclusiveKeys _ h.1.1, exclusive_of_exclusiveKeys _ h.1.2,
        exclusive_of_exclusiveKeys _ h.2⟩
    · simp only [hl, if_false] at hop ⊢
      exact exclusiveAll_associateAll s hex hop

/-- One operation that meets `keepsExclusive` keeps the three maps exclusive. -/
theorem step_exclusiveAll (c : Collaborators) (op : Op) (s : State)
    (hex : ExclusiveAll s) (hop : keepsExclusive op s = true) :
    ExclusiveAll (step c op s) := by
  have hempty : Exclusive ([] : Obj (List Entity)) := by
    intro i j e hi
    cases hi
  cases op with
  | reset => exact ⟨hempty, hempty, hempty⟩
  | set files =>
    obtain ⟨_, _, _, _, h5, h6, h7⟩ := set_frame files s
    show ExclusiveAll (FileManager.set files s)
    unfold ExclusiveAll
    rw [h5, h6, h7]
    exact hex
  | switch i =>
    obtain ⟨_, h2, h3, h4⟩ := sameRegistry_switch c i s
    show ExclusiveAll (FileManager.switch c i s)
    unfold ExclusiveAll
    rw [h2, h3, h4]
    exact hex
  | refreshPageInfo =>
    show ExclusiveAll (FileManager.refreshPageInfo c s)
    unfold FileManager.refreshPageInfo
    cases c.isMultipage s.app <;> exact hex
  | addAxes axes => exact ⟨exclusive_addToCollection _ _ _ hex.1 hop, hex.2.1, hex.2.2⟩
  | addDatasets datasets =>
    exact ⟨hex.1, exclusive_addToCollection _ _ _ hex.2.1 hop, hex.2.2⟩
  | addMeasurements measurements =>
    exact ⟨hex.1, hex.2.1, exclusive_addToCollection _ _ _ hex.2.2 hop⟩
  | deleteDatasets datasets =>
    exact ⟨hex.1, exclusive_deleteFromCollection _ _ _ hex.2.1, hex.2.2⟩
  | deleteMeasurements measurements =>
    exact ⟨hex.1, hex.2.1, exclusive_deleteFromCollection _ _ _ hex.2.2⟩
  | getMetadata => exact exclusiveAll_of_sameRegistry (sameRegistry_savePageManager s) hex
  | loadMetadata metadata =>
    exact exclusiveAll_of_sameRegistry (sameRegistry_loadMetadata metadata s)
      (exclusiveAll_loadFileMetadata metadata s hex hop)
  | fetchesSettled page pdfs =>
    exact exclusiveAll_of_sameRegistry (sameRegistry_loadMetadataThen c page pdfs s) hex

theorem run_exclusiveAll (c : Collaborators) (ops : List Op) (s : State)
    (hex : ExclusiveAll s) (hops : allKeepExclusive c ops s = true) :
    ExclusiveAll (run c ops s) := by
  induction ops generalizing s with
  | nil => exact hex
  | cons op ops ih =>
    have h : keepsExclusive op s = true ∧ allKeepExclusive c ops (step c op s) = true := by
      simpa [allKeepExclusive] using hops
    exact ih (step c op s) (step_exclusiveAll c op s hex h.1) h.2

/-- C10 as stated fails: with two files loaded, the axes object `A1` is added
while file 0 is current and again while file 1 is current; it is then a
member of the sets of both files. -/
theorem entity_under_two_files :
    (run sampleCollaborators
        [.set twoImages, .addAxes [⟨1, "A1"⟩], .switch 1, .addAxes [⟨1, "A1"⟩]]
        (FileManager.create emptyApp)).axesByFile
      = [(0, [⟨1, "A1"⟩]), (1, [⟨1, "A1"⟩])] := by
  decide

/-- C10 amended: in every state reached from a freshly constructed manager by
a sequence of operations in which every `add...ToCurrentFile` is given
entities that no other file holds, every `loadMetadata` that installs a
`file` section installs maps listing no entity under two indices, and every
`loadMetadata` that takes the other branch finds no entity of the plot data
under a file other than 0, no entity is a member of the sets of two different
indices, in each of the three association maps. -/
theorem association_exclusive (c : Collaborators) (app : AppData) (ops : List Op)
    (hops : allKeepExclusive c ops (FileManager.create app) = true) :
    Exclusive (run c ops (FileManager.create app)).axesByFile
      ∧ Exclusive (run c ops (FileManager.create app)).datasetsByFile
      ∧ Exclusive (run c ops (FileManager.create app)).measurementsByFile := by
  have hempty : Exclusive ([] : Obj (List Entity)) := by
    intro i j e hi
    cases hi
  exact run_exclusiveAll c ops (FileManager.create app) ⟨hempty, hempty, hempty⟩ hops

/-- C10 amended, at a concrete session. -/
theorem association_exclusive_witness :
    Exclusive (run sampleCollaborators tidySession (FileManager.create emptyApp)).axesByFile
      ∧ Exclusive
        (run sampleCollaborators tidySession (FileManager.create emptyApp)).datasetsByFile
      ∧ Exclusive
        (run sampleCollaborators tidySession (FileManager.create emptyApp)).measurementsByFile :=
  association_exclusive sampleCollaborators emptyApp tidySession (by decide)

/-! ## Export: the sections of the metadata -/

theorem Obj.exists_get_iff {α : Type} (o : Obj α) :
    (∃ k v, o.get k = some v) ↔ o.keys.length > 0 := by
  cases o with
  | nil => simp [Obj.get, Obj.keys]
  | cons p rest =>
    obtain ⟨k, v⟩ := p
    constructor
    · intro _
      simp [Obj.keys]
    · intro _
      exact ⟨k, v, by simp [Obj.get]⟩

/-- The two sections of the object returned by `getMetadata`. -/
theorem getMetadata_fst (c : Collaborators) (s : State) :
    (FileManager.getMetadata c s).1.file
        = (if s.files.length > 1 then
            some
              { axes := utils.invertObject s.axesByFile
                datasets := utils.invertObject s.datasetsByFile
                measurements :=
                  s.app.plotData.measurementColl.map
                    (fun ms => utils.findKey s.measurementsByFile ms) }
          else none)
      ∧ (FileManager.getMetadata c s).1.page
        = (if (FileManager._savePageManager s).pageManagers.keys.length > 0 then
            some
              { axes := FileManager.objectAssign
                  ([] :: (FileManager.cachedPageManagers (FileManager._savePageManager s)).map
                    c.getAxesNameMap)
                datasets := FileManager.objectAssign
                  ([] :: (FileManager.cachedPageManagers (FileManager._savePageManager s)).map
                    c.getDatasetNameMap)
                measurements :=
                  s.app.plotData.measurementColl.map
                    (fun ms => FileManager.foundPage ms
                      ((FileManager.cachedPageManagers (FileManager._savePageManager s)).map
                        c.getMeasurementPageMap)) }
          else none) := by
  obtain ⟨_, _, p3, p4, p5, p6, _, _⟩ := savePageManager_frame s
  unfold FileManager.getMetadata
  simp only [FileManager.fileCount, FileManager.getAxesNameMap, FileManager.getDatasetNameMap,
    p3, p4, p5, p6]
  refine ⟨?_, ?_⟩ <;> first | rfl | trivial

/-- C11: the object returned by `getMetadata` has a `file` section exactly
when more than one file is loaded, and a `page` section exactly when some
page manager is cached once the live one has been saved; with at most one
file, no live page manager and none cached it is the empty object. -/
theorem getMetadata_sections (c : Collaborators) (s : State) :
    ((FileManager.getMetadata c s).1.file.isSome = true ↔ s.files.length > 1)
      ∧ ((FileManager.getMetadata c s).1.page.isSome = true ↔
          ∃ k pm, (FileManager._savePageManager s).pageManagers.get k = some pm)
      ∧ (s.files.length ≤ 1 → s.app.pageManager = none → (∀ k, s.pageManagers.get k = none) →
          (FileManager.getMetadata c s).1 = { file := none, page := none }) := by
  obtain ⟨hf, hp⟩ := getMetadata_fst c s
  refine ⟨?_, ?_, ?_⟩
  · rw [hf]
    by_cases h : s.files.length > 1 <;> simp [h]
  · rw [hp, Obj.exists_get_iff]
    by_cases h : (FileManager._savePageManager s).pageManagers.keys.length > 0 <;> simp [h]
  · intro hlen hlive hnone
    have h1 : ¬ s.files.length > 1 := by omega
    have h2 : ¬ (FileManager._savePageManager s).pageManagers.keys.length > 0 := by
      rw [savePageManager_of_no_live s hlive, ← Obj.exists_get_iff]
      rintro ⟨k, v, hk⟩
      rw [hnone k] at hk
      cases hk
    rw [if_neg h1] at hf
    rw [if_neg h2] at hp
    cases hm : (FileManager.getMetadata c s).1 with
    | mk file page =>
      rw [hm] at hf hp
      simp only at hf hp
      rw [hf, hp]

/-- C11 at a concrete input: one image with nothing live and nothing cached
exports the empty object. -/
theorem getMetadata_sections_witness :
    (FileManager.getMetadata sampleCollaborators singleImageWithData).1
      = { file := none, page := none } :=
  (getMetadata_sections sampleCollaborators singleImageWithData).2.2
    (by decide) rfl (fun _ => rfl)

/-- What `findKey` returns is the owner of the object in the collection. -/
theorem findKey_isOwnerLookup (o : Obj (List Entity)) (m : Entity) :
    IsOwnerLookup o m (utils.findKey o m) := by
  induction o with
  | nil =>
    refine ⟨by simp [utils.findKey], ?_, ?_⟩
    · intro i h
      simp [utils.findKey] at h
    · rintro i ⟨l, hl, _⟩ _
      cases hl
  | cons p rest ih =>
    obtain ⟨key, members⟩ := p
    obtain ⟨ih1, ih2, ih3⟩ := ih
    by_cases hm : m ∈ members
    · have hf : utils.findKey ((key, members) :: rest) m = some key := by
        simp [utils.findKey, hm]
      rw [hf]
      refine ⟨?_, ?_, ?_⟩
      · constructor
        · intro h
          cases h
        · intro h
          exact absurd hm (h (key, members) (List.mem_cons_self _ _))
      · intro i hi
        cases hi
        exact ⟨members, List.mem_cons_self _ _, hm⟩
      · intro i _ hall
        exact congrArg some (hall (key, members) (List.mem_cons_self _ _) hm)
    · have hf : utils.findKey ((key, members) :: rest) m = utils.findKey rest m := by
        simp [utils.findKey, hm]
      rw [hf]
      refine ⟨?_, ?_, ?_⟩
      · rw [ih1]
        constructor
        · intro h p hp
          rcases List.mem_cons.mp hp with rfl | hp'
          · exact hm
          · exact h p hp'
        · intro h p hp
          exact h p (List.mem_cons_of_mem _ hp)
      · intro i hi
        obtain ⟨l, hl, hml⟩ := ih2 i hi
        exact ⟨l, List.mem_cons_of_mem _ hl, hml⟩
      · rintro i ⟨l, hl, hml⟩ hall
        rcases List.mem_cons.mp hl with heq | hl'
        · cases heq
          exact absurd hml hm
        · exact ih3 i ⟨l, hl', hml⟩ (fun p hp => hall p (List.mem_cons_of_mem _ hp))

/-- C12: with more than one file loaded, the `file.measurements` list written
by `getMetadata` has one entry per measurement of the measurement collection,
and its `k`-th entry is the owner of the `k`-th measurement in
`measurementsByFile`: an index whose set holds the measurement (index 0
included), the index of its set when only one index holds it, and the absent
marker exactly when no set holds it. -/
theorem file_measurements_positional (c : Collaborators) (s : State)
    (hfiles : s.files.length > 1) :
    ∃ file, (FileManager.getMetadata c s).1.file = some file
      ∧ file.measurements.length = s.app.plotData.measurementColl.length
      ∧ ∀ k m, s.app.plotData.measurementColl.get? k = some m →
          ∃ r, file.measurements.get? k = some r ∧ IsOwnerLookup s.measurementsByFile m r := by
  obtain ⟨hf, _⟩ := getMetadata_fst c s
  rw [if_pos hfiles] at hf
  refine ⟨_, hf, by simp, ?_⟩
  intro k m hk
  refine ⟨utils.findKey s.measurementsByFile m, ?_, findKey_isOwnerLookup _ _⟩
  rw [List.get?_eq_getElem?] at hk ⊢
  simp [hk]

/-- C12 at a concrete input: `M1` on file 0, `M2` on file 1, `M3` on no file
export as `[0, 1, absent]`. -/
theorem file_measurements_positional_witness :
    ∃ file, (FileManager.getMetadata sampleCollaborators measurementsOnTwoFiles).1.file
        = some file
      ∧ file.measurements = [some 0, some 1, none] := by
  obtain ⟨file, hfile, _, _⟩ :=
    file_measurements_positional sampleCollaborators measurementsOnTwoFiles (by decide)
  refine ⟨file, hfile, ?_⟩
  have h : (FileManager.getMetadata sampleCollaborators measurementsOnTwoFiles).1.file
      = some ⟨[], [], [some 0, some 1, none]⟩ := by decide
  rw [h] at hfile
  cases hfile
  rfl

/-! ## Import: the file part -/

/-- C13: when the metadata has no `file` section, or at most one file is
loaded, `loadMetadata` leaves under index 0 the complete axes collection, the
complete dataset collection and the complete measurement collection of the
plot data (whether or not its page part then throws). -/
theorem loadMetadata_fallback (metadata : Metadata) (s : State)
    (h : metadata.file = none ∨ s.files.length ≤ 1) :
    (FileManager.outcome (FileManager.loadMetadata metadata s)).axesByFile.get 0
        = some s.app.plotData.axesColl
      ∧ (FileManager.outcome (FileManager.loadMetadata metadata s)).datasetsByFile.get 0
        = some s.app.plotData.datasets
      ∧ (FileManager.outcome (FileManager.loadMetadata metadata s)).measurementsByFile.get 0
        = some s.app.plotData.measurementColl := by
  obtain ⟨_, _, h3, h4, h5⟩ := sameRegistry_loadMetadata metadata s
  rw [h3, h4, h5]
  have hfile : FileManager.loadFileMetadata metadata s
      = FileManager.associateAllWithFirstFile s := by
    unfold FileManager.loadFileMetadata
    cases hf : metadata.file with
    | none => rfl
    | some file =>
      have hlen : ¬ s.files.length > 1 := by
        rcases h with h | h
        · rw [hf] at h
          cases h
        · omega
      simp [hlen]
  rw [hfile]
  exact ⟨Obj.get_put_self _ _ _, Obj.get_put_self _ _ _, Obj.get_put_self _ _ _⟩

/-- C13 at a concrete input: `loadMetadata({})` with one image loaded. -/
theorem loadMetadata_fallback_witness :
    (FileManager.outcome (FileManager.loadMetadata ⟨none, none⟩
        singleImageWithData)).axesByFile.get 0 = some [⟨1, "A1"⟩]
      ∧ (FileManager.outcome (FileManager.loadMetadata ⟨none, none⟩
        singleImageWithData)).datasetsByFile.get 0 = some [⟨2, "D1"⟩]
      ∧ (FileManager.outcome (FileManager.loadMetadata ⟨none, none⟩
        singleImageWithData)).measurementsByFile.get 0 = some [⟨3, "M1"⟩, ⟨4, "M2"⟩] :=
  loadMetadata_fallback ⟨none, none⟩ singleImageWithData (Or.inl rfl)

/-! ## The page manager cache is written once -/

theorem savePageManager_get_of_some (s : State) (k : Int) (pm : PageManager)
    (h : s.pageManagers.get k = some pm) :
    (FileManager._savePageManager s).pageManagers.get k = some pm := by
  by_cases hk : k = s.currentIndex
  · unfold FileManager._savePageManager
    rw [← hk]
    cases s.app.pageManager with
    | none => exact h
    | some live => simp [h]
  · rw [savePageManager_get_of_ne s k hk]
    exact h

/-- An entry that `_savePageManager` changes is the entry of the current
index, was absent, and now holds the live page manager. -/
theorem savePageManager_writes (s : State) (j : Int)
    (h : (FileManager._savePageManager s).pageManagers.get j ≠ s.pageManagers.get j) :
    j = s.currentIndex ∧ s.pageManagers.get j = none ∧ s.app.pageManager ≠ none
      ∧ (FileManager._savePageManager s).pageManagers.get j = s.app.pageManager := by
  have hj : j = s.currentIndex := by
    by_contra hne
    exact h (savePageManager_get_of_ne s j hne)
  have hnone : s.pageManagers.get j = none := by
    cases hg : s.pageManagers.get j with
    | none => rfl
    | some pm => exact absurd ((savePageManager_get_of_some s j pm hg).trans hg.symm) h
  have hlive : s.app.pageManager ≠ none := by
    intro hl
    apply h
    rw [savePageManager_of_no_live s hl]
  refine ⟨hj, hnone, hlive, ?_⟩
  rw [hj] at hnone ⊢
  exact savePageManager_get_current s hnone

/-- The page manager cache after `switch` is the one `_savePageManager`
leaves, or the cache as it was. -/
theorem switch_pageManagers (c : Collaborators) (i : Int) (s : State) :
    (FileManager.switch c i s).pageManagers = (FileManager._savePageManager s).pageManagers
      ∨ (FileManager.switch c i s).pageManagers = s.pageManagers := by
  by_cases h : i ≠ s.currentIndex ∧ i > -1 ∧ i ≤ (s.files.length : Int)
  · exact Or.inl (switch_accepted c s i h.1 (by omega) h.2.2).2.1
  · right
    unfold FileManager.switch FileManager.parseInt
    rw [if_neg h]

/-- C14: a page manager that is cached for an index `k` is still the one
cached for `k` after any `switch(i)` and after `getMetadata()`; the save step
changes an entry only when it is the entry of the current index, there was
none, and a page manager is live, which it then stores. -/
theorem pageManager_first_write_wins (c : Collaborators) (s : State) (k i : Int)
    (pm : PageManager) (h : s.pageManagers.get k = some pm) :
    (FileManager.switch c i s).pageManagers.get k = some pm
      ∧ (FileManager.getMetadata c s).2.pageManagers.get k = some pm
      ∧ ∀ j, (FileManager._savePageManager s).pageManagers.get j ≠ s.pageManagers.get j →
          j = s.currentIndex ∧ s.pageManagers.get j = none ∧ s.app.pageManager ≠ none
            ∧ (FileManager._savePageManager s).pageManagers.get j = s.app.pageManager := by
  refine ⟨?_, savePageManager_get_of_some s k pm h, fun j hj => savePageManager_writes s j hj⟩
  rcases switch_pageManagers c i s with hs | hs
  · rw [hs]
    exact savePageManager_get_of_some s k pm h
  · rw [hs]
    exact h

/-- C14 at a concrete input: the page manager `9` cached for file 2 survives
a switch from file 1 to file 2 and an export. -/
theorem pageManager_first_write_wins_witness :
    (FileManager.switch sampleCollaborators 2 thirdFileCached).pageManagers.get 2 = some ⟨9⟩
      ∧ (FileManager.getMetadata sampleCollaborators thirdFileCached).2.pageManagers.get 2
        = some ⟨9⟩ := by
  obtain ⟨h1, h2, _⟩ :=
    pageManager_first_write_wins sampleCollaborators thirdFileCached 2 2 ⟨9⟩ rfl
  exact ⟨h1, h2⟩

/-! ## Export: the page of a measurement -/

/-- The entry written for a measurement is the first page key other than 0
that `findKey` finds, scanning the measurement page maps in order. -/
theorem foundPage_eq_first_nonzero (ms : Entity) (maps : List (Obj (List Entity))) :
    FileManager.foundPage ms maps
      = (maps.filterMap
          (fun map => (utils.findKey map ms).filter (fun page => decide (page ≠ 0)))).head? := by
  induction maps with
  | nil => rfl
  | cons map rest ih =>
    unfold FileManager.foundPage
    cases hk : utils.findKey map ms with
    | none => simp [List.filterMap_cons, hk, ih]
    | some page =>
      by_cases hp : page = 0
      · simp [List.filterMap_cons, hk, hp, ih, Option.filter]
      · simp [List.filterMap_cons, hk, hp, Option.filter]

/-- C15, at page key 0: the measurement `M1` is on page key 0 of the only
cached page manager, and `page.measurements` holds the absent marker for it;
with a second page manager that has `M1` on page key 3, the entry is 3, not
the key found in the first page manager. -/
theorem page_zero_exported_as_absent :
    utils.findKey (pageZeroCollaborators.getMeasurementPageMap ⟨1⟩) ⟨3, "M1"⟩ = some 0
      ∧ (FileManager.getMetadata pageZeroCollaborators onePdfPageZero).1.page
        = some ⟨[], [], [none]⟩
      ∧ (FileManager.getMetadata pageZeroCollaborators twoPdfsPageZero).1.page
        = some ⟨[], [], [some 3]⟩ := by
  refine ⟨by decide, by decide, by decide⟩

/-! ## What `switch` and `reset` leave -/

/-- C17: `switch`, whatever its argument, leaves the file list and the three
association maps as they are, and leaves every entry of the page manager
cache and of the undo manager cache whose index is not the current index as
it is. -/
theorem switch_leaves_registry (c : Collaborators) (s : State) (i : Int) :
    (FileManager.switch c i s).files = s.files
      ∧ (FileManager.switch c i s).axesByFile = s.axesByFile
      ∧ (FileManager.switch c i s).datasetsByFile = s.datasetsByFile
      ∧ (FileManager.switch c i s).measurementsByFile = s.measurementsByFile
      ∧ ∀ k, k ≠ s.currentIndex →
          (FileManager.switch c i s).pageManagers.get k = s.pageManagers.get k
            ∧ (FileManager.switch c i s).undoManagers.get k = s.undoManagers.get k := by
  obtain ⟨h1, h2, h3, h4⟩ := sameRegistry_switch c i s
  refine ⟨h1, h2, h3, h4, ?_⟩
  intro k hk
  by_cases h : i ≠ s.currentIndex ∧ i > -1 ∧ i ≤ (s.files.length : Int)
  · obtain ⟨_, a2, a3, _⟩ := switch_accepted c s i h.1 (by omega) h.2.2
    obtain ⟨p1, p2, _⟩ := savePageManager_frame s
    refine ⟨?_, ?_⟩
    · rw [a2]
      exact savePageManager_get_of_ne s k hk
    · rw [a3, saveUndoManager_get_of_ne c _ k (by
        show k ≠ (FileManager._savePageManager s).currentIndex
        rw [p1]
        exact hk)]
      show (FileManager._savePageManager s).undoManagers.get k = _
      rw [p2]
  · unfold FileManager.switch FileManager.parseInt
    rw [if_neg h]
    exact ⟨rfl, rfl⟩

/-- C18: after `reset` the current index is 0 and the file list, both caches
and the three association maps are empty; the fields of the manager are then
those of a freshly constructed one, and a second `reset` changes none of them
(it only sends the request to hide the page information once more). -/
theorem reset_restores_initial_state (s : State) :
    (FileManager.reset s).currentIndex = 0
      ∧ (FileManager.reset s).files = []
      ∧ (FileManager.reset s).pageManagers = []
      ∧ (FileManager.reset s).undoManagers = []
      ∧ (FileManager.reset s).axesByFile = []
      ∧ (FileManager.reset s).datasetsByFile = []
      ∧ (FileManager.reset s).measurementsByFile = []
      ∧ { FileManager.reset s with effects := [] }
          = { FileManager.create s.app with effects := [] }
      ∧ { FileManager.reset (FileManager.reset s) with effects := [] }
          = { FileManager.reset s with effects := [] }
      ∧ (FileManager.reset (FileManager.reset s)).effects
          = (FileManager.reset s).effects ++ [.toggleElementsDisplay .pageInfoElements true] :=
  ⟨rfl, rfl, rfl, rfl, rfl, rfl, rfl, rfl, rfl, rfl⟩

/-! ## Import: the page part -/

theorem Obj.get_isSome_of_mem_keys {α : Type} (o : Obj α) (k : Int) (h : k ∈ o.keys) :
    ∃ v, o.get k = some v := by
  induction o with
  | nil => cases h
  | cons p rest ih =>
    obtain ⟨k', v'⟩ := p
    by_cases hk : k' = k
    · exact ⟨v', by simp [Obj.get, hk]⟩
    · have h' : k ∈ Obj.keys rest := by
        simp only [Obj.keys, List.map_cons, List.mem_cons] at h
        rcases h with h | h
        · exact absurd h.symm hk
        · exact h
      obtain ⟨v, hv⟩ := ih h'
      exact ⟨v, by simp [Obj.get, hk, hv]⟩

/-- The loop of `filterPages` over a list of page keys of `pages`: a key of
the list ends up with the filtered entries of `pages`, any other key with
what the accumulator had. -/
theorem filterPages_loop_get (pages : Obj (List Entity)) (keep : Entity → Bool)
    (ks : List Int) (hks : ∀ k ∈ ks, k ∈ pages.keys) (acc : Obj (List Entity)) (key : Int) :
    (ks.foldl
      (fun acc page =>
        match pages.get page with
        | some entries => acc.put page (entries.filter keep)
        | none => acc) acc).get key
      = if key ∈ ks then (pages.get key).map (fun entries => entries.filter keep)
        else acc.get key := by
  induction ks generalizing acc with
  | nil => simp
  | cons k rest ih =>
    simp only [List.foldl_cons]
    rw [ih (fun k' hk' => hks k' (List.mem_cons_of_mem _ hk'))]
    obtain ⟨v, hv⟩ := Obj.get_isSome_of_mem_keys pages k (hks k (List.mem_cons_self _ _))
    by_cases hrest : key ∈ rest
    · simp [hrest]
    · by_cases hk : key = k
      · subst hk
        simp [hrest, hv, Obj.get_put_self]
      · simp [hrest, hk, hv, Obj.get_put_of_ne _ _ _ _ hk]

theorem Obj.get_eq_none_of_not_mem_keys {α : Type} (o : Obj α) (k : Int) (h : k ∉ o.keys) :
    o.get k = none := by
  cases hg : o.get k with
  | none => rfl
  | some v => exact absurd (Obj.mem_keys_of_get o k v hg) h

theorem filterPages_isPagesFilteredBy (pages : Obj (List Entity))
    (members : Option (List Entity)) :
    IsPagesFilteredBy (FileManager.filterPages pages members) pages members := by
  have hkeep : (fun e : Entity =>
      match members with
      | some ms => decide (e ∈ ms)
      | none => false) = fun e => decide (e ∈ members.getD []) := by
    funext e
    cases members <;> simp
  have hget : ∀ key, (FileManager.filterPages pages members).get key
      = (pages.get key).map
          (fun entries => entries.filter (fun e => decide (e ∈ members.getD []))) := by
    intro key
    unfold FileManager.filterPages
    rw [hkeep, filterPages_loop_get pages _ pages.keys (fun k hk => hk) [] key]
    by_cases hk : key ∈ pages.keys
    · simp [hk]
    · simp [hk, Obj.get_eq_none_of_not_mem_keys pages key hk, Obj.get]
  refine ⟨hget, ?_⟩
  intro hnone key entries hk
  rw [hget key, hnone] at hk
  cases hp : pages.get key with
  | none =>
    rw [hp] at hk
    cases hk
  | some l =>
    rw [hp] at hk
    simp at hk
    exact hk

theorem handedPageData_congr (page : PageMetadata) {s s' : State} (h : SameRegistry s s')
    (d : Int) : handedPageData page s' d = handedPageData page s d := by
  obtain ⟨_, _, h3, h4, h5⟩ := h
  unfold handedPageData
  rw [h3, h4, h5]

theorem get?_append_cons_length {α : Type} (pre : List α) (x : α) (tail : List α) :
    (pre ++ x :: tail).get? pre.length = some x := by
  induction pre with
  | nil => rfl
  | cons a pre ih => simpa using ih

theorem le_of_mem_pdfIndices (files : List Document) (index d : Nat)
    (h : d ∈ pdfIndices files index) : index ≤ d := by
  induction files generalizing index with
  | nil => cases h
  | cons f rest ih =>
    unfold pdfIndices at h
    by_cases hf : f.type = "application/pdf"
    · rw [if_pos hf] at h
      rcases List.mem_cons.mp h with h | h
      · omega
      · have := ih (index + 1) h
        omega
    · rw [if_neg hf] at h
      have := ih (index + 1) h
      omega

/-- The loop of the callback over files that all come after file 0: every
PDF among them gets a page manager built from its parsed document, so the
loop does not throw, and each is handed the page data filtered for it. -/
theorem reconstructPages_fetched (c : Collaborators) (page : PageMetadata)
    (parsed : Nat → Pdf) (rest : List Document) (index pdfIndex : Nat)
    (pre : List (Option Pdf)) (s : State) (hidx : index > 0) (hpre : pre.length = pdfIndex) :
    ∃ s', FileManager.reconstructPages c page
          (pre ++ FileManager.resolvedPdfs parsed rest index) rest index pdfIndex s = .ok s'
      ∧ s'.effects = s.effects ++ (pdfIndices rest index).map
          (fun d => Effect.loadPageData (c.initializePDFManager (some (parsed d)))
            (handedPageData page s d)) := by
  induction rest generalizing index pdfIndex pre s with
  | nil => exact ⟨s, rfl, by simp [pdfIndices]⟩
  | cons f rest ih =>
    by_cases hf : f.type = "application/pdf"
    · have hres : FileManager.resolvedPdfs parsed (f :: rest) index
          = some (parsed index) :: FileManager.resolvedPdfs parsed rest (index + 1) := by
        simp [FileManager.resolvedPdfs, hf, hidx]
      have hget : (pre ++ FileManager.resolvedPdfs parsed (f :: rest) index).get? pdfIndex
          = some (some (parsed index)) := by
        rw [hres, ← hpre]
        exact get?_append_cons_length _ _ _
      have hlist : pre ++ FileManager.resolvedPdfs parsed (f :: rest) index
          = (pre ++ [some (parsed index)]) ++ FileManager.resolvedPdfs parsed rest (index + 1) := by
        rw [hres]
        simp
      obtain ⟨s', hs', heff⟩ := ih (index + 1) (pdfIndex + 1) (pre ++ [some (parsed index)])
        (FileManager.emit
          (.loadPageData (c.initializePDFManager (some (parsed index)))
            (handedPageData page s index))
          { s with
            pageManagers :=
              s.pageManagers.put index (c.initializePDFManager (some (parsed index))) })
        (by omega) (by simp [hpre])
      refine ⟨s', ?_, ?_⟩
      · rw [← hs', ← hlist]
        conv_lhs => unfold FileManager.reconstructPages
        simp only [hf, if_true, hget, Obj.get_put_self]
        rfl
      · rw [heff]
        simp only [pdfIndices, hf, if_true, List.map_cons, FileManager.emit,
          List.append_assoc, List.singleton_append]
        rfl
    · have hres : FileManager.resolvedPdfs parsed (f :: rest) index
          = FileManager.resolvedPdfs parsed rest (index + 1) := by
        simp [FileManager.resolvedPdfs, hf]
      obtain ⟨s', hs', heff⟩ := ih (index + 1) pdfIndex pre s (by omega) hpre
      refine ⟨s', ?_, ?_⟩
      · rw [← hs', hres]
        conv_lhs => unfold FileManager.reconstructPages
        simp only [hf, if_false]
      · rw [heff]
        simp only [pdfIndices, hf, if_false]

/-- The whole loop of the callback, run on the array that `Promise.all`
resolves to: when the page manager of file 0 is at hand after the save step
(should file 0 be a PDF), the loop does not throw and hands every PDF file
the page data filtered for it. -/
theorem reconstructPages_resolved (c : Collaborators) (page : PageMetadata)
    (parsed : Nat → Pdf) (files : List Document) (s : State) (pm0 : PageManager)
    (hfirst : 0 ∈ pdfIndices files 0 →
      (FileManager._savePageManager s).pageManagers.get 0 = some pm0) :
    ∃ s', FileManager.reconstructPages c page (FileManager.resolvedPdfs parsed files 0)
          files 0 0 s = .ok s'
      ∧ s'.effects = s.effects ++ (pdfIndices files 0).map
          (fun d => Effect.loadPageData (pageManagerAt c parsed pm0 d)
            (handedPageData page s d)) := by
  have hlater : ∀ (rest : List Document) (s0 : State),
      (pdfIndices rest 1).map
          (fun d => Effect.loadPageData (c.initializePDFManager (some (parsed d)))
            (handedPageData page s0 d))
        = (pdfIndices rest 1).map
          (fun d => Effect.loadPageData (pageManagerAt c parsed pm0 d)
            (handedPageData page s0 d)) := by
    intro rest s0
    apply List.map_congr_left
    intro d hd
    have hd1 : 1 ≤ d := le_of_mem_pdfIndices rest 1 d hd
    have hd0 : ¬ d = 0 := by omega
    simp [pageManagerAt, hd0]
  cases files with
  | nil => exact ⟨s, rfl, by simp [pdfIndices]⟩
  | cons f rest =>
    by_cases hf : f.type = "application/pdf"
    · have hres : FileManager.resolvedPdfs parsed (f :: rest) 0
          = [none] ++ FileManager.resolvedPdfs parsed rest 1 := by
        simp [FileManager.resolvedPdfs, hf]
      have hpm : (FileManager._savePageManager s).pageManagers.get ((0 : Nat) : Int)
          = some pm0 := hfirst (by simp [pdfIndices, hf])
      obtain ⟨s', hs', heff⟩ := reconstructPages_fetched c page parsed rest 1 1 [none]
        (FileManager.emit
          (.loadPageData pm0 (handedPageData page (FileManager._savePageManager s) (0 : Nat)))
          (FileManager._savePageManager s))
        (by omega) rfl
      refine ⟨s', ?_, ?_⟩
      · rw [← hs', hres]
        conv_lhs => unfold FileManager.reconstructPages
        simp only [hf, if_true]
        have hget : ([none] ++ FileManager.resolvedPdfs parsed rest 1).get? 0
            = some (none : Option Pdf) := rfl
        simp only [hget, hpm]
        rfl
      · obtain ⟨_, _, _, _, _, _, _, p8⟩ := savePageManager_frame s
        have hsame : SameRegistry s (FileManager.emit
            (.loadPageData pm0 (handedPageData page (FileManager._savePageManager s) (0 : Nat)))
            (FileManager._savePageManager s)) :=
          SameRegistry.trans' (sameRegistry_savePageManager s) (sameRegistry_emit _ _)
        have hfun : (fun d : Nat => Effect.loadPageData (c.initializePDFManager (some (parsed d)))
            (handedPageData page (FileManager.emit
              (.loadPageData pm0
                (handedPageData page (FileManager._savePageManager s) (0 : Nat)))
              (FileManager._savePageManager s)) d))
            = fun d : Nat => Effect.loadPageData (c.initializePDFManager (some (parsed d)))
              (handedPageData page s d) := by
          funext d
          rw [handedPageData_congr page hsame]
        rw [heff, hfun, hlater rest s,
          handedPageData_congr page (sameRegistry_savePageManager s)]
        simp only [pdfIndices, hf, if_true, List.map_cons, FileManager.emit, p8,
          List.append_assoc, List.singleton_append]
        simp [pageManagerAt]
    · have hres : FileManager.resolvedPdfs parsed (f :: rest) 0
          = [] ++ FileManager.resolvedPdfs parsed rest 1 := by
        simp [FileManager.resolvedPdfs, hf]
      obtain ⟨s', hs', heff⟩ := reconstructPages_fetched c page parsed rest 1 0 [] s
        (by omega) rfl
      refine ⟨s', ?_, ?_⟩
      · rw [← hs', hres]
        conv_lhs => unfold FileManager.reconstructPages
        simp only [hf, if_false]
      · rw [heff, hlater rest s]
        simp only [pdfIndices, hf, if_false]

/-- C16: let the callback of the page part of `loadMetadata` run on the array
that `Promise.all` resolves to, with the page manager of file 0 at hand
(cached, or live while file 0 is current) should file 0 be a PDF.  Then it
returns, and it has called `loadPageData` exactly once for every PDF file
`d`, in file order, before the one tree refresh: on the page manager of `d`,
with maps that have the page keys of the `page` section of the metadata and
under each key its entries that are members of the association set of `d`
for that kind, in their order (none when `d` has no set). -/
theorem page_import_hands_filtered_maps (c : Collaborators) (page : PageMetadata)
    (parsed : Nat → Pdf) (s : State) (pm0 : PageManager)
    (hfirst : 0 ∈ pdfIndices s.files 0 →
      (FileManager._savePageManager s).pageManagers.get 0 = some pm0) :
    (∃ s', FileManager.loadMetadataThen c page (FileManager.resolvedPdfs parsed s.files 0) s
          = .ok s'
      ∧ s'.effects = s.effects
          ++ (pdfIndices s.files 0).map
            (fun d => Effect.loadPageData (pageManagerAt c parsed pm0 d)
              (handedPageData page s d))
          ++ [.treeRefresh])
      ∧ ∀ d : Int,
          IsPagesFilteredBy (handedPageData page s d).axes page.axes (s.axesByFile.get d)
            ∧ IsPagesFilteredBy (handedPageData page s d).datasets page.datasets
              (s.datasetsByFile.get d)
            ∧ IsPagesFilteredBy (handedPageData page s d).measurements page.measurements
              (s.measurementsByFile.get d) := by
  refine ⟨?_, fun d => ⟨filterPages_isPagesFilteredBy _ _, filterPages_isPagesFilteredBy _ _,
    filterPages_isPagesFilteredBy _ _⟩⟩
  obtain ⟨s', hs', heff⟩ := reconstructPages_resolved c page parsed s.files s pm0 hfirst
  refine ⟨FileManager.emit .treeRefresh s', ?_, ?_⟩
  · unfold FileManager.loadMetadataThen
    rw [hs']
  · show s'.effects ++ [Effect.treeRefresh] = _
    rw [heff]

/-- C16 at scenario 3: two PDFs and a `page` section without a `file`
section.  The page manager `1` of file 0 receives every listed entity, and
the page manager `11` built for file 1 receives the same page keys with empty
lists. -/
theorem page_import_hands_filtered_maps_witness :
    ∃ s', FileManager.loadMetadataThen sampleCollaborators scenarioThreePage
          (FileManager.resolvedPdfs (fun d => ⟨d + 10⟩) scenarioThree.files 0) scenarioThree
          = .ok s'
      ∧ s'.effects = scenarioThree.effects
          ++ [.loadPageData ⟨1⟩ scenarioThreePage,
              .loadPageData ⟨11⟩
                { axes := [(1, []), (2, [])], datasets := [(1, [])], measurements := [(2, [])] }]
          ++ [.treeRefresh] := by
  obtain ⟨⟨s', hs', heff⟩, _⟩ :=
    page_import_hands_filtered_maps sampleCollaborators scenarioThreePage
      (fun d => ⟨d + 10⟩) scenarioThree ⟨1⟩ (fun _ => by decide)
  refine ⟨s', hs', ?_⟩
  rw [heff]
  have hlog : (pdfIndices scenarioThree.files 0).map
      (fun d => Effect.loadPageData
        (pageManagerAt sampleCollaborators (fun d => ⟨d + 10⟩) ⟨1⟩ d)
        (handedPageData scenarioThreePage scenarioThree d))
      = [.loadPageData ⟨1⟩ scenarioThreePage,
          .loadPageData ⟨11⟩
            { axes := [(1, []), (2, [])], datasets := [(1, [])],
              measurements := [(2, [])] }] := by
    decide
  rw [hlog]

end WPD
